import Mathlib

/-!
XC::NodeLockers: the registry of node lockers (hypotheses)

Shallow embedding of `src/domain/mesh/NodeLockers.cc`, followed by the functions
`getIdPuntosQuad`, `getPunto` and `getPuntos` of
`src/preprocessor/cad/matrices/TritrizPtrPnt.cc`.

Conventions of the embedding

* `std::string` is `String`; `std::map<std::string,NodeLocker *>` is the list of its
  (key, value) entries in iteration order.  `std::less<std::string>` is the lexicographic
  comparison of the character sequences (`less`).
* A `NodeLocker *` owned by the map is the value of the object it points to; `nullptr` is
  `none`.  In the event trace an object is named by the key that owns it together with
  its value.
* `int` values (`tag`, `NodeLocker::getTag()`, result codes) are integers.  The increment
  `tag++` of the 32-bit counter is taken modulo 2^32 into the range of `int` (`int_wrap`):
  at `INT_MAX` it yields `INT_MIN`, as the compiled program does.  The element count, a
  `size_t` on both sides of the exchange, is a natural number.
* Output to `std::cerr` / `std::clog`, calls of `Domain::removeNodeLocker` and `delete`
  expressions are recorded, in program order, in an event trace.
* Dereferencing a null `Domain *` has no defined result: the functions that may do so
  return an `Option`, `none` standing for that case.
-/

namespace XC

/-- Modelled from the spec: SFreedom_Constraint (class declaration missing from the
sources), "DOF reference, prescribed scalar value, owning load-pattern tag".  Only the
integer attributes are kept (node tag, DOF number, load pattern tag); the floating-point
value is not represented. -/
structure SFreedom_Constraint where
  nodeTag : Int
  dofNumber : Int
  loadPatternTag : Int
deriving DecidableEq, Repr

/-- Modelled from the spec: NodeLocker (class declaration missing from the sources), a
hypothesis with an "integer tag" and "an owned sub-container of Single-Freedom
Constraints". -/
structure NodeLocker where
  tag : Int
  constraints : List SFreedom_Constraint
deriving DecidableEq, Repr

namespace NodeLocker

/-- The expression `new NodeLocker(tag)`: a locker with the given tag and no constraint. -/
def new (tag : Int) : NodeLocker := ⟨tag, []⟩

/-- The accessor `NodeLocker::getTag()`. -/
def getTag (p : NodeLocker) : Int := p.tag

end NodeLocker

/-- Observable effects of the member functions, in program order. -/
inductive Event where
  /-- a diagnostic written to `std::cerr` -/
  | cerr
  /-- a notice written to `std::clog` -/
  | clog
  /-- the call `getDomain()->removeNodeLocker(p)`, `p` being owned by key `nmb` -/
  | removeNodeLocker (nmb : String) (p : NodeLocker)
  /-- the expression `delete p`, `p` being owned by key `nmb` -/
  | delete (nmb : String) (p : NodeLocker)
deriving DecidableEq, Repr

/-- Modelled from the spec: Mesh (class declaration missing from the sources).  The only
thing the registry asks of its mesh is `getDomain()`; `hasDomain` tells whether that
pointer is non-null. -/
structure Mesh where
  hasDomain : Bool
deriving DecidableEq, Repr

/-- The comparison `std::less<std::string>`: lexicographic order of the characters. -/
def less (a b : String) : Prop := a.data < b.data

instance less.decidable (a b : String) : Decidable (less a b) :=
  inferInstanceAs (Decidable (a.data < b.data))

/-- The type `map_node_lockers`, as the list of its entries in iteration order. -/
abbrev map_node_lockers := List (String × NodeLocker)

namespace map_node_lockers

/-- The member `std::map::find`: the value stored under `nmb`, `none` for `end()`. -/
def find : map_node_lockers → String → Option NodeLocker
  | [], _ => none
  | (k, v) :: rest, nmb => if k = nmb then some v else find rest nmb

/-- The assignment `m[nmb]= p`: replaces the value of an existing key, otherwise inserts
the entry at its place in key order. -/
def assign : map_node_lockers → String → NodeLocker → map_node_lockers
  | [], nmb, p => [(nmb, p)]
  | (k, v) :: rest, nmb, p =>
    if k = nmb then (k, p) :: rest
    else if less nmb k then (nmb, p) :: (k, v) :: rest
    else (k, v) :: assign rest nmb p

/-- The member `std::map::erase` at the position `find(nmb)`. -/
def erase : map_node_lockers → String → map_node_lockers
  | [], _ => []
  | (k, v) :: rest, nmb => if k = nmb then rest else (k, v) :: erase rest nmb

/-- The keys in iteration order. -/
def keys (m : map_node_lockers) : List String := m.map Prod.fst

/-- The representation invariant of `std::map`: keys strictly ascending. -/
def Ordered (m : map_node_lockers) : Prop := (keys m).Pairwise less

instance Ordered.decidable (m : map_node_lockers) : Decidable (Ordered m) :=
  inferInstanceAs (Decidable ((keys m).Pairwise less))

end map_node_lockers

/-- The contents of one serialized `NodeLocker`, as written by `sendMovable`. -/
abbrev Payload := List Int

/-- The `DbTagData` vectors a transport call may address. -/
inductive DbTagBlock where
  /-- the five positions returned by `getDbTagData()` -/
  | dbTagData
  /-- the local `labelData(sz)` -/
  | labelData
  /-- the local `objData(sz)` -/
  | objData
deriving DecidableEq, Repr

/-- The transport calls made by the exchange functions, each with the position given in
its `CommMetaData`. -/
inductive Call where
  | sendString (d : DbTagBlock) (pos : Nat)
  | sendMovable (pos : Nat)
  | send (pos : Nat)
  | sendIdData
  | receiveString (d : DbTagBlock) (pos : Nat)
  | receiveMovable (pos : Nat)
  | receive (pos : Nat)
  | receiveIdData
deriving DecidableEq, Repr

/-- Modelled from the spec: CommParameters and the serialization of a NodeLocker (neither
is in the sources), the "opaque byte-stream carrier".  `result` is the integer each
transport call returns; `sendMovable` is the payload `NodeLocker::sendSelf` writes and
`receiveMovable` the object `NodeLocker::recvSelf` leaves after reading a payload.  The
carrier delivers the data it was handed. -/
structure CommParameters where
  result : Call → Int
  sendMovable : NodeLocker → Payload
  receiveMovable : NodeLocker → Payload → NodeLocker

/-- One frame of the exchange: the five positions of `getDbTagData()` with the blocks
they stand for.  Positions 2 and 3 are `none` when the block was not written. -/
structure Frame where
  /-- position 0: the tag -/
  pos0 : Int
  /-- position 1: the element count -/
  pos1 : Nat
  /-- position 2: the label block -/
  labelData : Option (List String)
  /-- position 3: the payload block -/
  objData : Option (List Payload)
  /-- position 4: the current-selection name -/
  code : String
deriving DecidableEq, Repr

/-- A sample serialization of the constraints of a locker, used in the examples: the
three integers of each constraint, one constraint after the other. -/
def encodeConstraints : List SFreedom_Constraint → Payload
  | [] => []
  | c :: cs => c.nodeTag :: c.dofNumber :: c.loadPatternTag :: encodeConstraints cs

/-- The reading side of `encodeConstraints`. -/
def decodeConstraints : Payload → List SFreedom_Constraint
  | a :: b :: c :: rest => ⟨a, b, c⟩ :: decodeConstraints rest
  | _ => []

/-- A sample carrier, used in the examples: every call returns 0, a locker is sent as
its encoded constraints, and receiving replaces the constraints of the target. -/
def sampleComm : CommParameters :=
  { result := fun _ => 0
    sendMovable := fun p => encodeConstraints p.constraints
    receiveMovable := fun p data => { p with constraints := decodeConstraints data } }

/-- The largest value of `int`. -/
def INT_MAX : Int := 2147483647

/-- The smallest value of `int`. -/
def INT_MIN : Int := -2147483648

/-- The value an `int` holds after an arithmetic result `x`: `x` reduced modulo 2^32 into
the range from `INT_MIN` to `INT_MAX`. -/
def int_wrap (x : Int) : Int := (x + 2147483648) % 4294967296 - 2147483648

/-- The data members of `XC::NodeLockers`, with the owner it was constructed on. -/
structure NodeLockers where
  /-- the result of `dynamic_cast<Mesh *>(Owner())`, `none` for a null pointer -/
  owner : Option Mesh
  node_lockers : map_node_lockers
  tag : Int
  code : String
deriving DecidableEq, Repr

/-- What a member function leaves behind: its return value, the object afterwards and
the events it produced. -/
structure Outcome (α : Type) where
  retval : α
  state : NodeLockers
  trace : List Event

namespace NodeLockers

/-- The constructor `NodeLockers(Mesh *owr)`: `tag(0), code("nil")`, no entry. -/
def ctor (owr : Option Mesh) : NodeLockers :=
  { owner := owr, node_lockers := [], tag := 0, code := "nil" }

/-- The number of registered lockers, `node_lockers.size()`. -/
def size (this : NodeLockers) : Nat := this.node_lockers.length

/-- The member `busca_node_locker(nmb)`. -/
def busca_node_locker (this : NodeLockers) (nmb : String) : Option NodeLocker :=
  this.node_lockers.find nmb

/-- The loop of `buscaNodeLocker(tag)` over the entries from `begin()`. -/
def buscaNodeLocker_loop : map_node_lockers → Int → Option NodeLocker
  | [], _ => none
  | (_, p) :: rest, tag => if p.getTag = tag then some p else buscaNodeLocker_loop rest tag

/-- The member `buscaNodeLocker(tag)`. -/
def buscaNodeLocker (this : NodeLockers) (tag : Int) : Option NodeLocker :=
  buscaNodeLocker_loop this.node_lockers tag

/-- The member `nuevoNodeLocker(nmb)`.  `new` does not return a null pointer, so the
branch `no se pudo crear` is not reachable.  The statement `tag++` increments an `int`:
the new value is `int_wrap (tag + 1)`. -/
def nuevoNodeLocker (this : NodeLockers) (nmb : String) : Outcome (Option NodeLocker) :=
  if !nmb.isEmpty then
    match this.busca_node_locker nmb with
    | none =>
      let retval := NodeLocker.new this.tag
      { retval := some retval
        state := { this with node_lockers := this.node_lockers.assign nmb retval
                             tag := int_wrap (this.tag + 1) }
        trace := [] }
    | some retval => { retval := some retval, state := this, trace := [Event.clog] }
  else
    { retval := none, state := this, trace := [Event.cerr] }

/-- The member `borraNodeLocker(nmb)`. -/
def borraNodeLocker (this : NodeLockers) (nmb : String) : Outcome Unit :=
  match this.node_lockers.find nmb with
  | some p =>
    { retval := ()
      state := { this with node_lockers := this.node_lockers.erase nmb }
      trace := [Event.delete nmb p] }
  | none => { retval := (), state := this, trace := [Event.cerr] }

/-- The member `getDomain()`: whether the returned pointer is non-null, and the
diagnostic written when the owner is not a mesh. -/
def getDomain (this : NodeLockers) : Bool × List Event :=
  match this.owner with
  | some mesh => (mesh.hasDomain, [])
  | none => (false, [Event.cerr])

/-- The member `removeFromDomain(cod)`; `none` when it calls through a null domain. -/
def removeFromDomain (this : NodeLockers) (cod : String) : Option (List Event) :=
  match this.busca_node_locker cod with
  | some p =>
    let d := this.getDomain
    if d.1 then some (d.2 ++ [Event.removeNodeLocker cod p]) else none
  | none => some [Event.cerr]

/-- The second loop of `removeAllFromDomain`: `removeFromDomain` on each collected name. -/
def removeAllFromDomain_loop (this : NodeLockers) : List String → Option (List Event)
  | [] => some []
  | cod :: rest =>
    match this.removeFromDomain cod with
    | none => none
    | some e1 =>
      match removeAllFromDomain_loop this rest with
      | none => none
      | some e2 => some (e1 ++ e2)

/-- The member `removeAllFromDomain()`. -/
def removeAllFromDomain (this : NodeLockers) : Option (List Event) :=
  let nombres := this.node_lockers.keys
  removeAllFromDomain_loop this nombres

/-- The member `clearAll()`. -/
def clearAll (this : NodeLockers) : Option (Outcome Unit) :=
  match this.removeAllFromDomain with
  | none => none
  | some e1 =>
    some { retval := ()
           state := { this with node_lockers := [] }
           trace := e1 ++ this.node_lockers.map (fun i => Event.delete i.1 i.2) }

/-- The member `getCurrentNodeLockerId()`. -/
def getCurrentNodeLockerId (this : NodeLockers) : String := this.code

/-- The member `getCurrentNodeLockerPtr()`. -/
def getCurrentNodeLockerPtr (this : NodeLockers) : Option NodeLocker :=
  this.busca_node_locker this.code

/-- The member `getTag()` of the registry (declared in the header, which is not in the
sources): the `tag` member. -/
def getTag (this : NodeLockers) : Int := this.tag

/-- The loop of `sendData` from position `loc`: the sum of the result codes, the labels
and the payloads written at `loc`, `loc+1`, ... -/
def sendData_loop (cp : CommParameters) :
    map_node_lockers → Nat → Int × List String × List Payload
  | [], _ => (0, [], [])
  | (k, p) :: rest, loc =>
    let r := sendData_loop cp rest (loc + 1)
    (cp.result (Call.sendString DbTagBlock.labelData loc) + cp.result (Call.sendMovable loc)
      + r.1, k :: r.2.1, cp.sendMovable p :: r.2.2)

/-- The member `sendData(cp)`: its return value and the frame it leaves. -/
def sendData (this : NodeLockers) (cp : CommParameters) : Int × Frame :=
  let sz := this.node_lockers.length
  if sz > 0 then
    let l := sendData_loop cp this.node_lockers 0
    (l.1 + cp.result (Call.send 2) + cp.result (Call.send 3)
      + cp.result (Call.sendString DbTagBlock.dbTagData 4),
     { pos0 := this.getTag, pos1 := sz, labelData := some l.2.1, objData := some l.2.2
       code := this.code })
  else
    (cp.result (Call.sendString DbTagBlock.dbTagData 4),
     { pos0 := this.getTag, pos1 := sz, labelData := none, objData := none
       code := this.code })

/-- One pass of the loop of `recvData` at index `i`; `acc` holds `res`, the object and
the trace so far.  A position the block does not have yields the empty string, resp. the
empty payload. -/
def recvData_step (cp : CommParameters) (labelData : List String) (objData : List Payload)
    (acc : Outcome Int) (i : Nat) : Outcome Int :=
  let label := labelData.getD i ""
  let tmp := acc.state.nuevoNodeLocker label
  match tmp.retval with
  | some p =>
    { retval := acc.retval + cp.result (Call.receiveString DbTagBlock.labelData i)
        + cp.result (Call.receiveMovable i)
      state := { tmp.state with
        node_lockers := tmp.state.node_lockers.assign label
          (cp.receiveMovable p (objData.getD i [])) }
      trace := acc.trace ++ tmp.trace }
  | none =>
    { retval := acc.retval + cp.result (Call.receiveString DbTagBlock.labelData i)
      state := tmp.state
      trace := acc.trace ++ tmp.trace ++ [Event.cerr] }

/-- The member `recvData(cp)` on the frame `f`. -/
def recvData (this : NodeLockers) (cp : CommParameters) (f : Frame) : Outcome Int :=
  let this1 := { this with tag := f.pos0 }
  let sz := f.pos1
  let looped : Outcome Int :=
    if sz > 0 then
      (List.range sz).foldl (recvData_step cp (f.labelData.getD []) (f.objData.getD []))
        { retval := cp.result (Call.receive 2) + cp.result (Call.receive 3)
          state := this1, trace := [] }
    else { retval := 0, state := this1, trace := [] }
  { retval := looped.retval + cp.result (Call.receiveString DbTagBlock.dbTagData 4)
    state := { looped.state with code := f.code }
    trace := looped.trace }

/-- The member `sendSelf(cp)`: `sendData`, then the five positions are handed to the
carrier with `sendIdData`; a negative total is reported on `std::cerr`. -/
def sendSelf (this : NodeLockers) (cp : CommParameters) : Int × Frame × List Event :=
  let sent := this.sendData cp
  let result := sent.1 + cp.result Call.sendIdData
  (result, sent.2, if result < 0 then [Event.cerr] else [])

/-- The member `recvSelf(cp)`; `f` is the frame the carrier holds.  When `receiveIdData`
reports a negative result the diagnostic is written and `recvData` is not called. -/
def recvSelf (this : NodeLockers) (cp : CommParameters) (f : Frame) : Outcome Int :=
  let result := cp.result Call.receiveIdData
  if result < 0 then
    { retval := result, state := this, trace := [Event.cerr] }
  else
    let received := this.recvData cp f
    { retval := result + received.retval, state := received.state
      trace := received.trace }

/-- The calls that create or remove lockers, as a client may issue them. -/
inductive Op where
  | nuevoNodeLocker (nmb : String)
  | borraNodeLocker (nmb : String)
  | clearAll
deriving DecidableEq, Repr

/-- The tag of the locker that the call `nuevoNodeLocker(nmb)` newly creates: the tag of
the returned locker when the name was not registered before the call, nothing when the
call returns an existing locker or a null pointer. -/
def issuedTag (this : NodeLockers) (nmb : String) : List Int :=
  match this.busca_node_locker nmb, (this.nuevoNodeLocker nmb).retval with
  | none, some p => [p.getTag]
  | _, _ => []

/-- One call on the registry: the object afterwards and the tag it issued to a new
locker, if any; `none` when the call goes through a null domain. -/
def step (this : NodeLockers) : Op → Option (NodeLockers × List Int)
  | Op.nuevoNodeLocker nmb => some ((this.nuevoNodeLocker nmb).state, issuedTag this nmb)
  | Op.borraNodeLocker nmb => some ((this.borraNodeLocker nmb).state, [])
  | Op.clearAll =>
    match this.clearAll with
    | none => none
    | some o => some (o.state, [])

/-- A sequence of calls, in order: the object at the end and the tags issued to newly
created lockers, in creation order.  The run ends at a call that does not return. -/
def run (this : NodeLockers) : List Op → NodeLockers × List Int
  | [] => (this, [])
  | op :: ops =>
    match step this op with
    | none => (this, [])
    | some (next, tags) => ((run next ops).1, tags ++ (run next ops).2)

/-- A sample registry, used in the examples: "H1" with three constraints and "H2" with
one, "H1" being current. -/
def sampleRegistry : NodeLockers :=
  { owner := none
    node_lockers :=
      [("H1", { tag := 0, constraints := [⟨5, 2, 1⟩, ⟨6, 0, 1⟩, ⟨7, 1, 1⟩] }),
       ("H2", { tag := 1, constraints := [⟨5, 0, 2⟩] })]
    tag := 2
    code := "H1" }

/-- The list `ops` repeated `n` times. -/
def repeatOps : Nat → List Op → List Op
  | 0, _ => []
  | n + 1, ops => ops ++ repeatOps n ops

/-- A sequence of calls that exhausts the counter: "a" is created and removed 2^31 - 1
times, then created, removed and created once more. -/
def overflowOps : List Op :=
  repeatOps 2147483647 [Op.nuevoNodeLocker "a", Op.borraNodeLocker "a"]
    ++ [Op.nuevoNodeLocker "a", Op.borraNodeLocker "a", Op.nuevoNodeLocker "a"]

/-- The states of a registry: what the constructor gives, and what `nuevoNodeLocker`,
`borraNodeLocker`, `clearAll` (when it returns) and `recvData` (over any carrier and any
frame) leave from such a state. -/
inductive Reachable : NodeLockers → Prop where
  | ctor (owr : Option Mesh) : Reachable (ctor owr)
  | nuevoNodeLocker (this : NodeLockers) (nmb : String) :
      Reachable this → Reachable (this.nuevoNodeLocker nmb).state
  | borraNodeLocker (this : NodeLockers) (nmb : String) :
      Reachable this → Reachable (this.borraNodeLocker nmb).state
  | clearAll (this : NodeLockers) (o : Outcome Unit) :
      Reachable this → this.clearAll = some o → Reachable o.state
  | recvData (this : NodeLockers) (cp : CommParameters) (f : Frame) :
      Reachable this → Reachable (this.recvData cp f).state

end NodeLockers

/-- Modelled from the spec: Pnt (class declaration missing from the sources), a point of
the geometric model.  Only its identifier `GetTag()` is kept; the position, used by
`getIdPuntosQuad` for a diagnostic about the area of the cell, is not represented. -/
structure Pnt where
  tag : Nat
deriving DecidableEq, Repr

/-- The accessor `Pnt::GetTag()`. -/
def Pnt.GetTag (p : Pnt) : Nat := p.tag

/-- Modelled from the spec: TritrizPtrPnt::const_ref_capa_i_cte (declaration missing from
the sources), one layer of a grid of point pointers: its numbers of rows and columns and
the element access `puntos(j,k)`, a null pointer being `none`. -/
structure const_ref_capa_i_cte where
  getNumFilas : Nat
  getNumCols : Nat
  elem : Nat → Nat → Option Pnt

/-- The statement `retval[i]= ptr->GetTag()` guarded by `if(ptr)`. -/
def setIdPunto (retval : List Nat) (i : Nat) (ptr : Option Pnt) : List Nat :=
  match ptr with
  | some p => retval.set i p.GetTag
  | none => retval

/-- The function `getIdPuntosQuad(puntos,j,k)`.  The vector starts as four copies of
`size_t(-1)`.  The diagnostics (all on `std::cerr`) do not affect the result and are not
represented. -/
def getIdPuntosQuad (puntos : const_ref_capa_i_cte) (j k : Nat) : List Nat :=
  let retval := List.replicate 4 (2 ^ 64 - 1)
  let nfilas := puntos.getNumFilas
  let ncols := puntos.getNumCols
  if j ≥ nfilas then retval
  else if k ≥ ncols then retval
  else
    let retval := setIdPunto retval 0 (puntos.elem j k)
    let retval := setIdPunto retval 1 (puntos.elem j (k + 1))
    let retval := setIdPunto retval 2 (puntos.elem (j + 1) (k + 1))
    let retval := setIdPunto retval 3 (puntos.elem (j + 1) k)
    retval

/-- A sample layer, used in the examples: two rows and two columns, the point at row `j`
and column `k` having tag `10 * j + k`. -/
def sampleCapa : const_ref_capa_i_cte :=
  { getNumFilas := 2, getNumCols := 2
    elem := fun j k => if 1 ≤ j ∧ j ≤ 2 ∧ 1 ≤ k ∧ k ≤ 2 then some ⟨10 * j + k⟩ else none }

/-- The type `VIndices`: a vector of integer indices. -/
abbrev VIndices := List Int

/-- Modelled from the spec: TritrizIndices (class declaration missing from the sources),
a grid of index vectors: its numbers of layers, rows and columns and the element access
`indices(i,j,k)`. -/
structure TritrizIndices where
  GetCapas : Nat
  getNumFilas : Nat
  getNumCols : Nat
  elem : Nat → Nat → Nat → VIndices

/-- Modelled from the spec: TritrizPtrPnt (class declaration missing from the sources), a
grid of point pointers: its numbers of layers, rows and columns and the element access
`(*this)(i,j,k)`, a null pointer being `none`. -/
structure TritrizPtrPnt where
  GetCapas : Nat
  getNumFilas : Nat
  getNumCols : Nat
  elem : Nat → Nat → Nat → Option Pnt

namespace TritrizPtrPnt

/-- The constructor `TritrizPtrPnt(capas,filas,cols)`: every pointer is null. -/
def ctor (capas filas cols : Nat) : TritrizPtrPnt :=
  { GetCapas := capas, getNumFilas := filas, getNumCols := cols
    elem := fun _ _ _ => none }

/-- The assignment `retval(i,j,k)= p`. -/
def assign (t : TritrizPtrPnt) (i j k : Nat) (p : Option Pnt) : TritrizPtrPnt :=
  { t with elem := fun a b c => if a = i ∧ b = j ∧ c = k then p else t.elem a b c }

/-- The member `getPunto(iPunto)`; the diagnostic for a short vector is not represented. -/
def getPunto (this : TritrizPtrPnt) (iPunto : VIndices) : Option Pnt :=
  if iPunto.length > 2 then
    if iPunto.getD 0 0 > 0 ∧ iPunto.getD 1 0 > 0 ∧ iPunto.getD 2 0 > 0 then
      this.elem (iPunto.getD 0 0).toNat (iPunto.getD 1 0).toNat (iPunto.getD 2 0).toNat
    else none
  else none

/-- What `getPuntos` has done so far: the grid being filled and the cells of `indices`
read, in order. -/
structure Gathered where
  retval : TritrizPtrPnt
  reads : List (Nat × Nat × Nat)

/-- The body of the innermost loop of `getPuntos(indices)` at `(i,j,k)`. -/
def getPuntos_body (this : TritrizPtrPnt) (indices : TritrizIndices) (acc : Gathered)
    (i j k : Nat) : Gathered :=
  let iPunto := indices.elem i j k
  if iPunto.length > 2 then
    { retval := acc.retval.assign i j k (this.getPunto iPunto)
      reads := acc.reads ++ [(i, j, k)] }
  else
    { retval := acc.retval, reads := acc.reads ++ [(i, j, k)] }

/-- The member `getPuntos(const TritrizIndices &indices)`: `i` runs from 1 to `nCapas`,
`j` from 1 to `nFilas` and `k` from 1 to `nCapas`, as the loop headers are written. -/
def getPuntos (this : TritrizPtrPnt) (indices : TritrizIndices) : Gathered :=
  let nCapas := indices.GetCapas
  let nFilas := indices.getNumFilas
  let nCols := indices.getNumCols
  let retval := ctor nCapas nFilas nCols
  (List.range' 1 nCapas).foldl (fun acc i =>
    (List.range' 1 nFilas).foldl (fun acc j =>
      (List.range' 1 nCapas).foldl (fun acc k =>
        getPuntos_body this indices acc i j k) acc) acc)
    { retval := retval, reads := [] }

end TritrizPtrPnt

/-- A sample grid of points, used in the examples: one layer, one row, two columns, the
points having tags 1 and 2. -/
def samplePuntos : TritrizPtrPnt :=
  { GetCapas := 1, getNumFilas := 1, getNumCols := 2
    elem := fun i j k =>
      if i = 1 ∧ j = 1 ∧ k = 1 then some ⟨1⟩
      else if i = 1 ∧ j = 1 ∧ k = 2 then some ⟨2⟩ else none }

/-- A sample grid of indices, used in the examples: one layer, one row, two columns, the
cell `(1,1,k)` holding the indices `1, 1, k`. -/
def sampleIndices : TritrizIndices :=
  { GetCapas := 1, getNumFilas := 1, getNumCols := 2
    elem := fun i j k => [(i : Int), (j : Int), (k : Int)] }

/-- A second sample grid of indices: two layers, one row, one column. -/
def sampleIndicesDeep : TritrizIndices :=
  { GetCapas := 2, getNumFilas := 1, getNumCols := 1
    elem := fun i j k => [(i : Int), (j : Int), (k : Int)] }

end XC

namespace XC

/-! The map operations -/

theorem less_iff_lt (a b : String) : less a b ↔ a < b :=
  String.lt_iff_toList_lt.symm

theorem less_irrefl (a : String) : ¬ less a a := by
  rw [less_iff_lt]; exact lt_irrefl a

theorem less_trans {a b c : String} (h1 : less a b) (h2 : less b c) : less a c := by
  rw [less_iff_lt] at *; exact lt_trans h1 h2

theorem less_of_not_less_of_ne {a b : String} (h1 : ¬ less a b) (h2 : b ≠ a) : less b a := by
  rw [less_iff_lt] at *
  exact lt_of_le_of_ne (not_lt.mp h1) h2

namespace map_node_lockers

theorem find_assign_self (m : map_node_lockers) (k : String) (v : NodeLocker) :
    find (assign m k v) k = some v := by
  induction m with
  | nil => simp [assign, find]
  | cons e rest ih =>
    obtain ⟨k1, v1⟩ := e
    by_cases h1 : k1 = k
    · simp [assign, find, h1]
    · by_cases h2 : less k k1
      · simp [assign, find, h1, h2]
      · simp [assign, find, h1, h2, ih]

theorem find_assign_ne (m : map_node_lockers) (k : String) (v : NodeLocker) (k2 : String)
    (h : k2 ≠ k) : find (assign m k v) k2 = find m k2 := by
  induction m with
  | nil => simp [assign, find, Ne.symm h]
  | cons e rest ih =>
    obtain ⟨k1, v1⟩ := e
    by_cases h1 : k1 = k
    · subst h1
      simp [assign, find, Ne.symm h]
    · by_cases h2 : less k k1
      · simp [assign, find, h1, h2, Ne.symm h]
      · simp [assign, find, h1, h2, ih]

theorem find_eq_none_iff (m : map_node_lockers) (k : String) :
    find m k = none ↔ k ∉ keys m := by
  induction m with
  | nil => simp [find, keys]
  | cons e rest ih =>
    obtain ⟨k1, v1⟩ := e
    by_cases h1 : k1 = k
    · simp [find, keys, h1]
    · simp only [find, h1, if_false, ih]
      simp [keys, Ne.symm h1]

theorem find_isSome_iff (m : map_node_lockers) (k : String) :
    (find m k).isSome ↔ k ∈ keys m := by
  rw [← not_iff_not, ← find_eq_none_iff]
  cases find m k <;> simp

theorem length_assign_of_find_none (m : map_node_lockers) (k : String) (v : NodeLocker)
    (h : find m k = none) : (assign m k v).length = m.length + 1 := by
  induction m with
  | nil => simp [assign]
  | cons e rest ih =>
    obtain ⟨k1, v1⟩ := e
    by_cases h1 : k1 = k
    · simp [find, h1] at h
    · simp only [find, h1, if_false] at h
      by_cases h2 : less k k1
      · simp [assign, h1, h2]
      · simp [assign, h1, h2, ih h]

theorem ordered_cons (k : String) (v : NodeLocker) (rest : map_node_lockers) :
    Ordered ((k, v) :: rest) ↔ (∀ k2 ∈ keys rest, less k k2) ∧ Ordered rest := by
  simp [Ordered, keys, List.pairwise_cons]

theorem ordered_nil : Ordered [] := by
  simp [Ordered, keys]

theorem keys_assign_of_find_some (m : map_node_lockers) (k : String) (v p : NodeLocker)
    (ho : Ordered m) (h : find m k = some p) : keys (assign m k v) = keys m := by
  induction m with
  | nil => simp [find] at h
  | cons e rest ih =>
    obtain ⟨k1, v1⟩ := e
    rw [ordered_cons] at ho
    by_cases h1 : k1 = k
    · simp [assign, keys, h1]
    · simp only [find, h1, if_false] at h
      by_cases h2 : less k k1
      · exfalso
        have hin : k ∈ keys rest := by
          rw [← find_isSome_iff, h]; rfl
        exact less_irrefl k (less_trans h2 (ho.1 k hin))
      · have := ih ho.2 h
        simp only [keys] at this
        simp [assign, h1, h2, keys, this]

theorem mem_keys_assign (m : map_node_lockers) (k : String) (v : NodeLocker) (k2 : String) :
    k2 ∈ keys (assign m k v) ↔ k2 = k ∨ k2 ∈ keys m := by
  rw [← find_isSome_iff, ← find_isSome_iff]
  by_cases h : k2 = k
  · subst h; simp [find_assign_self]
  · simp [find_assign_ne m k v k2 h, h]

theorem ordered_assign (m : map_node_lockers) (k : String) (v : NodeLocker)
    (ho : Ordered m) : Ordered (assign m k v) := by
  induction m with
  | nil => simp [assign, Ordered, keys]
  | cons e rest ih =>
    obtain ⟨k1, v1⟩ := e
    have ho2 := (ordered_cons k1 v1 rest).mp ho
    by_cases h1 : k1 = k
    · simp only [assign, h1, if_true]
      subst h1
      exact (ordered_cons _ _ _).mpr ho2
    · by_cases h2 : less k k1
      · simp only [assign, h1, h2, if_false, if_true]
        rw [ordered_cons]
        refine ⟨?_, ho⟩
        intro k2 hk2
        simp only [keys, List.map_cons, List.mem_cons] at hk2
        rcases hk2 with rfl | hk2
        · exact h2
        · exact less_trans h2 (ho2.1 k2 hk2)
      · simp only [assign, h1, h2, if_false]
        rw [ordered_cons]
        refine ⟨?_, ih ho2.2⟩
        intro k2 hk2
        rw [mem_keys_assign] at hk2
        rcases hk2 with rfl | hk2
        · exact less_of_not_less_of_ne h2 h1
        · exact ho2.1 k2 hk2

theorem find_erase_ne (m : map_node_lockers) (k k2 : String) (h : k2 ≠ k) :
    find (erase m k) k2 = find m k2 := by
  induction m with
  | nil => simp [erase]
  | cons e rest ih =>
    obtain ⟨k1, v1⟩ := e
    by_cases h1 : k1 = k
    · subst h1
      simp [erase, find, Ne.symm h]
    · simp [erase, find, h1, ih]

theorem find_erase_self (m : map_node_lockers) (k : String) (ho : Ordered m) :
    find (erase m k) k = none := by
  induction m with
  | nil => simp [erase, find]
  | cons e rest ih =>
    obtain ⟨k1, v1⟩ := e
    rw [ordered_cons] at ho
    by_cases h1 : k1 = k
    · subst h1
      simp only [erase, if_true]
      rw [find_eq_none_iff]
      intro hin
      exact less_irrefl k1 (ho.1 k1 hin)
    · simp [erase, find, h1, ih ho.2]

theorem length_erase_of_find_some (m : map_node_lockers) (k : String) (p : NodeLocker)
    (h : find m k = some p) : (erase m k).length + 1 = m.length := by
  induction m with
  | nil => simp [find] at h
  | cons e rest ih =>
    obtain ⟨k1, v1⟩ := e
    by_cases h1 : k1 = k
    · simp [erase, h1]
    · simp only [find, h1, if_false] at h
      simp [erase, h1, ih h]

theorem mem_keys_erase (m : map_node_lockers) (k k2 : String) (ho : Ordered m) :
    k2 ∈ keys (erase m k) ↔ k2 ≠ k ∧ k2 ∈ keys m := by
  rw [← find_isSome_iff, ← find_isSome_iff]
  by_cases h : k2 = k
  · subst h; simp [find_erase_self m k2 ho]
  · simp [find_erase_ne m k k2 h, h]

theorem ordered_erase (m : map_node_lockers) (k : String) (ho : Ordered m) :
    Ordered (erase m k) := by
  induction m with
  | nil => simp [erase, Ordered, keys]
  | cons e rest ih =>
    obtain ⟨k1, v1⟩ := e
    have ho2 := (ordered_cons k1 v1 rest).mp ho
    by_cases h1 : k1 = k
    · simp only [erase, h1, if_true]
      exact ho2.2
    · simp only [erase, h1, if_false]
      rw [ordered_cons]
      refine ⟨?_, ih ho2.2⟩
      intro k2 hk2
      rw [mem_keys_erase rest k k2 ho2.2] at hk2
      exact ho2.1 k2 hk2.2

end map_node_lockers
end XC

namespace XC

/-! The range of `int` -/

theorem int_wrap_of_range (x : Int) (hmin : INT_MIN ≤ x) (hmax : x ≤ INT_MAX) :
    int_wrap x = x := by
  unfold INT_MIN at hmin
  unfold INT_MAX at hmax
  unfold int_wrap
  omega

theorem int_wrap_range (x : Int) : INT_MIN ≤ int_wrap x ∧ int_wrap x ≤ INT_MAX := by
  unfold INT_MIN INT_MAX int_wrap
  omega

theorem int_wrap_succ_wrap (x : Int) : int_wrap (int_wrap x + 1) = int_wrap (x + 1) := by
  unfold int_wrap
  omega

theorem int_wrap_max_succ : int_wrap (INT_MAX + 1) = INT_MIN := by
  decide

end XC

namespace XC
namespace NodeLockers

/-! Creation, removal and the current selection -/

theorem isEmpty_eq_false_of_ne (nmb : String) (hne : nmb ≠ "") : nmb.isEmpty = false := by
  cases h : nmb.isEmpty with
  | false => rfl
  | true => exact absurd ((String.isEmpty_iff nmb).mp h) hne

theorem nuevoNodeLocker_of_some (this : NodeLockers) (nmb : String) (p : NodeLocker)
    (hne : nmb ≠ "") (h : this.busca_node_locker nmb = some p) :
    this.nuevoNodeLocker nmb = { retval := some p, state := this, trace := [Event.clog] } := by
  simp [nuevoNodeLocker, isEmpty_eq_false_of_ne nmb hne, h]

theorem nuevoNodeLocker_of_none (this : NodeLockers) (nmb : String)
    (hne : nmb ≠ "") (h : this.busca_node_locker nmb = none) :
    this.nuevoNodeLocker nmb =
      { retval := some (NodeLocker.new this.tag)
        state := { this with
          node_lockers := this.node_lockers.assign nmb (NodeLocker.new this.tag)
          tag := int_wrap (this.tag + 1) }
        trace := [] } := by
  simp [nuevoNodeLocker, isEmpty_eq_false_of_ne nmb hne, h]

theorem nuevoNodeLocker_empty (this : NodeLockers) :
    this.nuevoNodeLocker "" = { retval := none, state := this, trace := [Event.cerr] } := by
  have h : ("" : String).isEmpty = true := by decide
  simp [nuevoNodeLocker, h]

theorem busca_after_nuevoNodeLocker (this : NodeLockers) (nmb : String) (hne : nmb ≠ "") :
    (this.nuevoNodeLocker nmb).state.busca_node_locker nmb = (this.nuevoNodeLocker nmb).retval := by
  cases h : this.busca_node_locker nmb with
  | none =>
    rw [nuevoNodeLocker_of_none this nmb hne h]
    simp [busca_node_locker, map_node_lockers.find_assign_self]
  | some p =>
    rw [nuevoNodeLocker_of_some this nmb p hne h]
    exact h

/-- C1: a non-empty name that is already registered is not created again:
`nuevoNodeLocker` returns the entry `busca_node_locker` finds and leaves the registry as
it was (entries, size and tag counter).  Calling `nuevoNodeLocker` twice with the same
non-empty name therefore returns the same entry both times, and the second call changes
neither the registry nor its size. -/
theorem C1_nuevoNodeLocker_idempotent (this : NodeLockers) (nmb : String) (hne : nmb ≠ "") :
    (∀ p, this.busca_node_locker nmb = some p →
      (this.nuevoNodeLocker nmb).retval = some p ∧
      (this.nuevoNodeLocker nmb).state = this ∧
      (this.nuevoNodeLocker nmb).state.size = this.size) ∧
    ((this.nuevoNodeLocker nmb).state.nuevoNodeLocker nmb).retval
      = (this.nuevoNodeLocker nmb).retval ∧
    ((this.nuevoNodeLocker nmb).state.nuevoNodeLocker nmb).state
      = (this.nuevoNodeLocker nmb).state ∧
    ((this.nuevoNodeLocker nmb).state.nuevoNodeLocker nmb).state.size
      = (this.nuevoNodeLocker nmb).state.size := by
  have hfirst : ∀ p, this.busca_node_locker nmb = some p →
      (this.nuevoNodeLocker nmb).retval = some p ∧
      (this.nuevoNodeLocker nmb).state = this ∧
      (this.nuevoNodeLocker nmb).state.size = this.size := by
    intro p hp
    rw [nuevoNodeLocker_of_some this nmb p hne hp]
    exact ⟨rfl, rfl, rfl⟩
  refine ⟨hfirst, ?_⟩
  have hb := busca_after_nuevoNodeLocker this nmb hne
  cases hr : (this.nuevoNodeLocker nmb).retval with
  | none =>
    exfalso
    cases h : this.busca_node_locker nmb with
    | none => rw [nuevoNodeLocker_of_none this nmb hne h] at hr; simp at hr
    | some p => rw [nuevoNodeLocker_of_some this nmb p hne h] at hr; simp at hr
  | some q =>
    rw [hr] at hb
    rw [nuevoNodeLocker_of_some _ nmb q hne hb]
    exact ⟨rfl, rfl, rfl⟩

/-- Witness of C1: the registry holding "H1", asked for "H1" again. -/
theorem C1_nuevoNodeLocker_idempotent_witness :
    "H1" ≠ "" ∧
    (((ctor none).nuevoNodeLocker "H1").state.nuevoNodeLocker "H1").retval
      = some (NodeLocker.new 0) ∧
    (((ctor none).nuevoNodeLocker "H1").state.nuevoNodeLocker "H1").state.size = 1 :=
  ⟨by decide,
   ((C1_nuevoNodeLocker_idempotent (ctor none) "H1" (by decide)).2.1).trans (by decide),
   ((C1_nuevoNodeLocker_idempotent (ctor none) "H1" (by decide)).2.2.2).trans (by decide)⟩

/-- C2 (counterexample): a registry whose counter is `INT_MAX` (a new registry after one
`recvData` of a frame holding 2147483647 at position 0 and no entry).  Creating the fresh
name "H1" returns a locker of tag `INT_MAX`, but the counter does not advance to
`INT_MAX + 1`: it becomes `INT_MIN`. -/
theorem C2_counterexample :
    ((ctor none).recvData sampleComm
      { pos0 := 2147483647, pos1 := 0, labelData := none, objData := none
        code := "nil" }).state.tag = 2147483647 ∧
    ((ctor none).recvData sampleComm
      { pos0 := 2147483647, pos1 := 0, labelData := none, objData := none
        code := "nil" }).state.busca_node_locker "H1" = none ∧
    (((ctor none).recvData sampleComm
      { pos0 := 2147483647, pos1 := 0, labelData := none, objData := none
        code := "nil" }).state.nuevoNodeLocker "H1").state.tag = -2147483648 ∧
    ¬ ((((ctor none).recvData sampleComm
      { pos0 := 2147483647, pos1 := 0, labelData := none, objData := none
        code := "nil" }).state.nuevoNodeLocker "H1").state.tag = 2147483647 + 1) := by
  decide

/-- C2 (amended): a non-empty name that is not registered is created: the returned locker
carries the tag counter `t` as its tag, is afterwards found under that name, the size
grows by exactly one, and every other name is mapped as before (in particular each
previously registered name to the same locker).  The counter becomes `t + 1` reduced to
the range of `int`: it is `t + 1` whenever `t` is an `int` below `INT_MAX`, and `INT_MIN`
when `t` is `INT_MAX`. -/
theorem C2_nuevoNodeLocker_fresh (this : NodeLockers) (nmb : String) (hne : nmb ≠ "")
    (hfresh : this.busca_node_locker nmb = none) :
    (this.nuevoNodeLocker nmb).retval = some (NodeLocker.new this.tag) ∧
    (NodeLocker.new this.tag).getTag = this.tag ∧
    (this.nuevoNodeLocker nmb).state.busca_node_locker nmb = some (NodeLocker.new this.tag) ∧
    (this.nuevoNodeLocker nmb).state.size = this.size + 1 ∧
    (this.nuevoNodeLocker nmb).state.tag = int_wrap (this.tag + 1) ∧
    (INT_MIN ≤ this.tag → this.tag < INT_MAX →
      (this.nuevoNodeLocker nmb).state.tag = this.tag + 1) ∧
    (this.tag = INT_MAX → (this.nuevoNodeLocker nmb).state.tag = INT_MIN) ∧
    (∀ k, k ≠ nmb →
      (this.nuevoNodeLocker nmb).state.busca_node_locker k = this.busca_node_locker k) ∧
    (∀ k p, this.busca_node_locker k = some p →
      (this.nuevoNodeLocker nmb).state.busca_node_locker k = some p) := by
  rw [nuevoNodeLocker_of_none this nmb hne hfresh]
  have hother : ∀ k, k ≠ nmb →
      map_node_lockers.find (this.node_lockers.assign nmb (NodeLocker.new this.tag)) k
        = this.busca_node_locker k := by
    intro k hk
    exact map_node_lockers.find_assign_ne _ _ _ _ hk
  refine ⟨rfl, rfl, ?_, ?_, rfl, ?_, ?_, hother, ?_⟩
  · exact map_node_lockers.find_assign_self _ _ _
  · exact map_node_lockers.length_assign_of_find_none _ _ _ hfresh
  · intro hmin hmax
    have hmin2 : INT_MIN ≤ this.tag + 1 := by omega
    have hmax2 : this.tag + 1 ≤ INT_MAX := by omega
    exact int_wrap_of_range _ hmin2 hmax2
  · intro hmax
    show int_wrap (this.tag + 1) = INT_MIN
    rw [hmax]
    exact int_wrap_max_succ
  · intro k p hk
    have hne2 : k ≠ nmb := by
      intro h
      rw [h, hfresh] at hk
      exact Option.noConfusion hk
    exact (hother k hne2).trans hk

/-- Witness of C2: "H2" is created in the registry that holds "H1"; the counter goes from
1 to 2. -/
theorem C2_nuevoNodeLocker_fresh_witness :
    (((ctor none).nuevoNodeLocker "H1").state.nuevoNodeLocker "H2").retval
      = some (NodeLocker.new 1) ∧
    (((ctor none).nuevoNodeLocker "H1").state.nuevoNodeLocker "H2").state.size = 2 ∧
    (((ctor none).nuevoNodeLocker "H1").state.nuevoNodeLocker "H2").state.tag = 2 :=
  ⟨(C2_nuevoNodeLocker_fresh ((ctor none).nuevoNodeLocker "H1").state "H2"
      (by decide) (by decide)).1.trans (by decide),
   (C2_nuevoNodeLocker_fresh ((ctor none).nuevoNodeLocker "H1").state "H2"
      (by decide) (by decide)).2.2.2.1.trans (by decide),
   ((C2_nuevoNodeLocker_fresh ((ctor none).nuevoNodeLocker "H1").state "H2"
      (by decide) (by decide)).2.2.2.2.2.1 (by decide) (by decide)).trans (by decide)⟩

/-- C3: the empty name is rejected: `nuevoNodeLocker("")` returns a null pointer, and the
entries, the tag counter and the current-selection name are unchanged; the only effect
is one diagnostic on `std::cerr`. -/
theorem C3_nuevoNodeLocker_empty_name (this : NodeLockers) :
    (this.nuevoNodeLocker "").retval = none ∧
    (this.nuevoNodeLocker "").state = this ∧
    (this.nuevoNodeLocker "").state.node_lockers = this.node_lockers ∧
    (this.nuevoNodeLocker "").state.tag = this.tag ∧
    (this.nuevoNodeLocker "").state.code = this.code ∧
    (this.nuevoNodeLocker "").trace = [Event.cerr] := by
  rw [nuevoNodeLocker_empty]
  exact ⟨rfl, rfl, rfl, rfl, rfl, rfl⟩

end NodeLockers
end XC

namespace XC
namespace NodeLockers

theorem borraNodeLocker_of_some (this : NodeLockers) (nmb : String) (p : NodeLocker)
    (h : this.busca_node_locker nmb = some p) :
    this.borraNodeLocker nmb =
      { retval := ()
        state := { this with node_lockers := this.node_lockers.erase nmb }
        trace := [Event.delete nmb p] } := by
  simp only [busca_node_locker] at h
  simp [borraNodeLocker, h]

theorem borraNodeLocker_of_none (this : NodeLockers) (nmb : String)
    (h : this.busca_node_locker nmb = none) :
    this.borraNodeLocker nmb = { retval := (), state := this, trace := [Event.cerr] } := by
  simp only [busca_node_locker] at h
  simp [borraNodeLocker, h]

/-- C6: when the current-selection name is `N` and a locker is registered under `N`,
then after `borraNodeLocker(N)` the accessor `getCurrentNodeLockerPtr()` returns a null
pointer, not the removed locker. -/
theorem C6_current_selection_resilience (this : NodeLockers) (N : String) (p : NodeLocker)
    (hord : this.node_lockers.Ordered)
    (hcur : this.getCurrentNodeLockerId = N)
    (hin : this.busca_node_locker N = some p) :
    (this.borraNodeLocker N).state.getCurrentNodeLockerPtr = none ∧
    (this.borraNodeLocker N).state.getCurrentNodeLockerPtr ≠ some p := by
  have h : (this.borraNodeLocker N).state.getCurrentNodeLockerPtr = none := by
    rw [borraNodeLocker_of_some this N p hin]
    simp only [getCurrentNodeLockerId] at hcur
    simp only [getCurrentNodeLockerPtr, busca_node_locker, hcur]
    exact map_node_lockers.find_erase_self _ _ hord
  refine ⟨h, ?_⟩
  rw [h]
  exact fun hc => Option.noConfusion hc

/-- Witness of C6: "nil" is the current name of a new registry; create it, remove it. -/
theorem C6_current_selection_resilience_witness :
    (((ctor none).nuevoNodeLocker "nil").state.borraNodeLocker "nil").state.getCurrentNodeLockerPtr
      = none :=
  (C6_current_selection_resilience ((ctor none).nuevoNodeLocker "nil").state "nil"
    (NodeLocker.new 0) (by decide) (by decide) (by decide)).1

/-- C7 (what the code does): the whole event trace of `borraNodeLocker(N)` on a
registered name is the single `delete` of the locker; no call of
`Domain::removeNodeLocker` is made, before or after it. -/
theorem C7_borraNodeLocker_trace (this : NodeLockers) (N : String) (p : NodeLocker)
    (hin : this.busca_node_locker N = some p) :
    (this.borraNodeLocker N).trace = [Event.delete N p] ∧
    (this.borraNodeLocker N).trace.count (Event.removeNodeLocker N p) = 0 := by
  rw [borraNodeLocker_of_some this N p hin]
  refine ⟨rfl, ?_⟩
  simp [List.count_cons]

/-- Witness of C7: removing "H1" from a registry owned by a mesh with a domain. -/
theorem C7_borraNodeLocker_trace_witness :
    (((ctor (some ⟨true⟩)).nuevoNodeLocker "H1").state.borraNodeLocker "H1").trace
      = [Event.delete "H1" (NodeLocker.new 0)] :=
  (C7_borraNodeLocker_trace ((ctor (some ⟨true⟩)).nuevoNodeLocker "H1").state "H1"
    (NodeLocker.new 0) (by decide)).1

/-- C10: removing a registered name `N`: afterwards `busca_node_locker(N)` is null, the
size is one less, every other name is mapped to the same locker as before and the tag
counter is unchanged. -/
theorem C10_borraNodeLocker_present (this : NodeLockers) (N : String) (p : NodeLocker)
    (hord : this.node_lockers.Ordered)
    (hin : this.busca_node_locker N = some p) :
    (this.borraNodeLocker N).state.busca_node_locker N = none ∧
    (this.borraNodeLocker N).state.size + 1 = this.size ∧
    (∀ k, k ≠ N →
      (this.borraNodeLocker N).state.busca_node_locker k = this.busca_node_locker k) ∧
    (this.borraNodeLocker N).state.tag = this.tag := by
  rw [borraNodeLocker_of_some this N p hin]
  refine ⟨?_, ?_, ?_, rfl⟩
  · exact map_node_lockers.find_erase_self _ _ hord
  · exact map_node_lockers.length_erase_of_find_some _ _ p hin
  · intro k hk
    exact map_node_lockers.find_erase_ne _ _ _ hk

/-- Witness of C10: "H1" is removed from the registry holding "H1" and "H2". -/
theorem C10_borraNodeLocker_present_witness :
    ((((ctor none).nuevoNodeLocker "H1").state.nuevoNodeLocker "H2").state.borraNodeLocker
      "H1").state.busca_node_locker "H1" = none ∧
    ((((ctor none).nuevoNodeLocker "H1").state.nuevoNodeLocker "H2").state.borraNodeLocker
      "H1").state.size + 1 = 2 :=
  ⟨(C10_borraNodeLocker_present
      (((ctor none).nuevoNodeLocker "H1").state.nuevoNodeLocker "H2").state "H1"
      (NodeLocker.new 0) (by decide) (by decide)).1,
   (C10_borraNodeLocker_present
      (((ctor none).nuevoNodeLocker "H1").state.nuevoNodeLocker "H2").state "H1"
      (NodeLocker.new 0) (by decide) (by decide)).2.1.trans (by decide)⟩

end NodeLockers
end XC

namespace XC

/-! Removal of all lockers -/

namespace map_node_lockers

theorem find_of_mem (m : map_node_lockers) (k : String) (p : NodeLocker)
    (ho : Ordered m) (h : (k, p) ∈ m) : find m k = some p := by
  induction m with
  | nil => simp at h
  | cons e rest ih =>
    obtain ⟨k1, v1⟩ := e
    rw [ordered_cons] at ho
    rcases List.mem_cons.mp h with heq | hmem
    · cases heq
      simp [find]
    · have hk : less k1 k := ho.1 k (List.mem_map.mpr ⟨(k, p), hmem, rfl⟩)
      have hne : k1 ≠ k := fun hc => less_irrefl k (hc ▸ hk)
      simp [find, hne, ih ho.2 hmem]

theorem mem_of_find (m : map_node_lockers) (k : String) (p : NodeLocker)
    (h : find m k = some p) : (k, p) ∈ m := by
  induction m with
  | nil => simp [find] at h
  | cons e rest ih =>
    obtain ⟨k1, v1⟩ := e
    by_cases h1 : k1 = k
    · simp [find, h1] at h
      simp [h1, h]
    · simp only [find, h1, if_false] at h
      exact List.mem_cons_of_mem _ (ih h)

end map_node_lockers

namespace NodeLockers

theorem getDomain_trace_of_true (this : NodeLockers) (h : this.getDomain.1 = true) :
    this.getDomain.2 = [] := by
  unfold getDomain at h ⊢
  cases ho : this.owner with
  | none => rw [ho] at h; simp at h
  | some mesh => rfl

theorem removeFromDomain_of_some (this : NodeLockers) (cod : String) (p : NodeLocker)
    (hdom : this.getDomain.1 = true) (h : this.busca_node_locker cod = some p) :
    this.removeFromDomain cod = some [Event.removeNodeLocker cod p] := by
  simp [removeFromDomain, h, hdom, getDomain_trace_of_true this hdom]

theorem removeAllFromDomain_loop_eq (this : NodeLockers) (hdom : this.getDomain.1 = true)
    (l : map_node_lockers)
    (hl : ∀ k p, (k, p) ∈ l → this.busca_node_locker k = some p) :
    this.removeAllFromDomain_loop l.keys
      = some (l.map (fun i => Event.removeNodeLocker i.1 i.2)) := by
  induction l with
  | nil => rfl
  | cons e rest ih =>
    obtain ⟨k1, v1⟩ := e
    have h1 := removeFromDomain_of_some this k1 v1 hdom (hl k1 v1 (List.mem_cons_self _ _))
    have h2 := ih (fun k p hm => hl k p (List.mem_cons_of_mem _ hm))
    simp only [map_node_lockers.keys] at h2
    simp [map_node_lockers.keys, removeAllFromDomain_loop, h1, h2]

theorem clearAll_eq (this : NodeLockers) (hord : this.node_lockers.Ordered)
    (hdom : this.getDomain.1 = true) :
    this.clearAll = some
      { retval := ()
        state := { this with node_lockers := [] }
        trace := this.node_lockers.map (fun i => Event.removeNodeLocker i.1 i.2)
          ++ this.node_lockers.map (fun i => Event.delete i.1 i.2) } := by
  have h := removeAllFromDomain_loop_eq this hdom this.node_lockers
    (fun k p hm => map_node_lockers.find_of_mem _ k p hord hm)
  simp [clearAll, removeAllFromDomain, h]

theorem count_removeNodeLocker_of_not_mem (l : map_node_lockers) (k : String)
    (p : NodeLocker) (h : k ∉ l.keys) :
    (l.map (fun i => Event.removeNodeLocker i.1 i.2)).count (Event.removeNodeLocker k p)
      = 0 := by
  induction l with
  | nil => rfl
  | cons e rest ih =>
    obtain ⟨k1, v1⟩ := e
    simp only [map_node_lockers.keys, List.map_cons, List.mem_cons, not_or] at h
    have h1 : ¬ (k1 = k ∧ v1 = p) := fun hc => h.1 hc.1.symm
    have h2 := ih h.2
    simp only [List.map_cons, List.count_cons, h2]
    simp [h1]

theorem count_delete_of_not_mem (l : map_node_lockers) (k : String)
    (p : NodeLocker) (h : k ∉ l.keys) :
    (l.map (fun i => Event.delete i.1 i.2)).count (Event.delete k p) = 0 := by
  induction l with
  | nil => rfl
  | cons e rest ih =>
    obtain ⟨k1, v1⟩ := e
    simp only [map_node_lockers.keys, List.map_cons, List.mem_cons, not_or] at h
    have h1 : ¬ (k1 = k ∧ v1 = p) := fun hc => h.1 hc.1.symm
    have h2 := ih h.2
    simp only [List.map_cons, List.count_cons, h2]
    simp [h1]

theorem count_removeNodeLocker_of_mem (l : map_node_lockers) (k : String)
    (p : NodeLocker) (ho : l.Ordered) (h : (k, p) ∈ l) :
    (l.map (fun i => Event.removeNodeLocker i.1 i.2)).count (Event.removeNodeLocker k p)
      = 1 := by
  induction l with
  | nil => simp at h
  | cons e rest ih =>
    obtain ⟨k1, v1⟩ := e
    rw [map_node_lockers.ordered_cons] at ho
    rcases List.mem_cons.mp h with heq | hmem
    · cases heq
      have hnot : k ∉ map_node_lockers.keys rest := fun hc => less_irrefl k (ho.1 k hc)
      simp [List.count_cons, count_removeNodeLocker_of_not_mem rest k p hnot]
    · have hk : less k1 k := ho.1 k (List.mem_map.mpr ⟨(k, p), hmem, rfl⟩)
      have hne : ¬ (k1 = k ∧ v1 = p) := fun hc => less_irrefl k (hc.1 ▸ hk)
      simp [List.count_cons, ih ho.2 hmem, hne]

theorem count_delete_of_mem (l : map_node_lockers) (k : String)
    (p : NodeLocker) (ho : l.Ordered) (h : (k, p) ∈ l) :
    (l.map (fun i => Event.delete i.1 i.2)).count (Event.delete k p) = 1 := by
  induction l with
  | nil => simp at h
  | cons e rest ih =>
    obtain ⟨k1, v1⟩ := e
    rw [map_node_lockers.ordered_cons] at ho
    rcases List.mem_cons.mp h with heq | hmem
    · cases heq
      have hnot : k ∉ map_node_lockers.keys rest := fun hc => less_irrefl k (ho.1 k hc)
      simp [List.count_cons, count_delete_of_not_mem rest k p hnot]
    · have hk : less k1 k := ho.1 k (List.mem_map.mpr ⟨(k, p), hmem, rfl⟩)
      have hne : ¬ (k1 = k ∧ v1 = p) := fun hc => less_irrefl k (hc.1 ▸ hk)
      simp [List.count_cons, ih ho.2 hmem, hne]

theorem count_removeNodeLocker_map_delete (l : map_node_lockers) (k : String) (p : NodeLocker) :
    (l.map (fun i => Event.delete i.1 i.2)).count (Event.removeNodeLocker k p) = 0 := by
  induction l with
  | nil => rfl
  | cons e rest ih => simp [List.count_cons, ih]

theorem count_delete_map_removeNodeLocker (l : map_node_lockers) (k : String) (p : NodeLocker) :
    (l.map (fun i => Event.removeNodeLocker i.1 i.2)).count (Event.delete k p) = 0 := by
  induction l with
  | nil => rfl
  | cons e rest ih => simp [List.count_cons, ih]

theorem clearAll_eq_of_nil (this : NodeLockers) (hnil : this.node_lockers = []) :
    this.clearAll = some
      { retval := ()
        state := { this with node_lockers := [] }
        trace := this.node_lockers.map (fun i => Event.removeNodeLocker i.1 i.2)
          ++ this.node_lockers.map (fun i => Event.delete i.1 i.2) } := by
  simp [clearAll, removeAllFromDomain, map_node_lockers.keys, hnil, removeAllFromDomain_loop]

/-- C8 (counterexample): a registry constructed without a mesh, holding "H1".  The
registry is a reachable state with ascending keys, but `clearAll()` does not return
there: `removeFromDomain` calls `removeNodeLocker` through the null pointer that
`getDomain()` gives, so the registry is not left with zero lockers and no notification
is issued. -/
theorem C8_counterexample :
    Reachable ((ctor none).nuevoNodeLocker "H1").state ∧
    ((ctor none).nuevoNodeLocker "H1").state.node_lockers.Ordered ∧
    ((ctor none).nuevoNodeLocker "H1").state.size = 1 ∧
    ((ctor none).nuevoNodeLocker "H1").state.getDomain = (false, [Event.cerr]) ∧
    ((ctor none).nuevoNodeLocker "H1").state.removeFromDomain "H1" = none ∧
    ((ctor none).nuevoNodeLocker "H1").state.clearAll.isSome = false ∧
    ¬ ∃ o, ((ctor none).nuevoNodeLocker "H1").state.clearAll = some o ∧ o.state.size = 0 :=
  ⟨Reachable.nuevoNodeLocker _ "H1" (Reachable.ctor none), by decide, by decide, by decide,
   by decide, by decide,
   fun ⟨o, ho, _⟩ => by
    have hnone : ((ctor none).nuevoNodeLocker "H1").state.clearAll.isSome = false := by
      decide
    rw [ho] at hnone
    exact Bool.noConfusion hnone⟩

/-- C8 (amended): on a registry whose owner is a mesh with a domain, or which holds no
locker, `clearAll()` returns and leaves no locker (every lookup by name or by tag is then
null).  Its trace is the calls of `Domain::removeNodeLocker` for all entries followed by
the `delete`s of all entries; so for each registered locker exactly one notification is
issued, exactly one `delete` happens, and the notification comes before the `delete`. -/
theorem C8_clearAll (this : NodeLockers) (hord : this.node_lockers.Ordered)
    (hdom : this.getDomain.1 = true ∨ this.node_lockers = []) :
    ∃ o, this.clearAll = some o ∧
      o.state.size = 0 ∧
      (∀ nmb, o.state.busca_node_locker nmb = none) ∧
      (∀ tag, o.state.buscaNodeLocker tag = none) ∧
      o.trace = this.node_lockers.map (fun i => Event.removeNodeLocker i.1 i.2)
        ++ this.node_lockers.map (fun i => Event.delete i.1 i.2) ∧
      ∀ k p, this.busca_node_locker k = some p →
        o.trace.count (Event.removeNodeLocker k p) = 1 ∧
        o.trace.count (Event.delete k p) = 1 ∧
        ∃ l1 l2 l3, o.trace
          = l1 ++ Event.removeNodeLocker k p :: l2 ++ Event.delete k p :: l3 := by
  have heq : this.clearAll = some
      { retval := ()
        state := { this with node_lockers := [] }
        trace := this.node_lockers.map (fun i => Event.removeNodeLocker i.1 i.2)
          ++ this.node_lockers.map (fun i => Event.delete i.1 i.2) } := by
    rcases hdom with hdom | hnil
    · exact clearAll_eq this hord hdom
    · exact clearAll_eq_of_nil this hnil
  refine ⟨_, heq, rfl, fun _ => rfl, fun _ => rfl, rfl, ?_⟩
  intro k p hk
  have hmem : (k, p) ∈ this.node_lockers := map_node_lockers.mem_of_find _ k p hk
  refine ⟨?_, ?_, ?_⟩
  · simp only [List.count_append, count_removeNodeLocker_of_mem _ k p hord hmem,
      count_removeNodeLocker_map_delete]
  · simp only [List.count_append, count_delete_of_mem _ k p hord hmem,
      count_delete_map_removeNodeLocker]
  · obtain ⟨a, b, hab⟩ := List.append_of_mem hmem
    refine ⟨a.map (fun i => Event.removeNodeLocker i.1 i.2),
      b.map (fun i => Event.removeNodeLocker i.1 i.2) ++ a.map (fun i => Event.delete i.1 i.2),
      b.map (fun i => Event.delete i.1 i.2), ?_⟩
    simp only [hab]
    simp

/-- Witness of C8: a registry owned by a mesh with a domain, holding "H1" and "H2". -/
theorem C8_clearAll_witness :
    ∃ o, (((ctor (some ⟨true⟩)).nuevoNodeLocker "H2").state.nuevoNodeLocker "H1").state.clearAll
        = some o ∧
      o.state.size = 0 ∧
      o.trace = [Event.removeNodeLocker "H1" (NodeLocker.new 1),
                 Event.removeNodeLocker "H2" (NodeLocker.new 0),
                 Event.delete "H1" (NodeLocker.new 1),
                 Event.delete "H2" (NodeLocker.new 0)] := by
  obtain ⟨o, h1, h2, _, _, h5, _⟩ := C8_clearAll
    (((ctor (some ⟨true⟩)).nuevoNodeLocker "H2").state.nuevoNodeLocker "H1").state
    (by decide) (by decide)
  exact ⟨o, h1, h2, h5.trans (by decide)⟩

end NodeLockers
end XC

namespace XC
namespace NodeLockers

/-! Tags issued along a sequence of calls -/

theorem clearAll_tag (this : NodeLockers) (o : Outcome Unit) (h : this.clearAll = some o) :
    o.state.tag = this.tag := by
  unfold clearAll at h
  cases hr : this.removeAllFromDomain with
  | none => rw [hr] at h; simp at h
  | some e1 =>
    rw [hr] at h
    simp only [Option.some.injEq] at h
    rw [← h]

theorem borraNodeLocker_tag (this : NodeLockers) (nmb : String) :
    (this.borraNodeLocker nmb).state.tag = this.tag := by
  unfold borraNodeLocker
  cases this.node_lockers.find nmb <;> rfl

theorem step_tags (this next : NodeLockers) (op : Op) (tags : List Int)
    (h : step this op = some (next, tags)) :
    (tags = [] ∧ next.tag = this.tag) ∨
      (tags = [this.tag] ∧ next.tag = int_wrap (this.tag + 1)) := by
  cases op with
  | nuevoNodeLocker nmb =>
    simp only [step, Option.some.injEq, Prod.mk.injEq] at h
    obtain ⟨h1, h2⟩ := h
    by_cases hne : nmb = ""
    · left
      subst hne
      rw [nuevoNodeLocker_empty] at h1
      have ht : issuedTag this "" = [] := by
        unfold issuedTag
        rw [nuevoNodeLocker_empty]
        cases this.busca_node_locker "" <;> rfl
      rw [ht] at h2
      exact ⟨h2.symm, by rw [← h1]⟩
    · cases hb : this.busca_node_locker nmb with
      | none =>
        right
        rw [nuevoNodeLocker_of_none this nmb hne hb] at h1
        have ht : issuedTag this nmb = [this.tag] := by
          unfold issuedTag
          rw [nuevoNodeLocker_of_none this nmb hne hb, hb]
          rfl
        rw [ht] at h2
        exact ⟨h2.symm, by rw [← h1]⟩
      | some p =>
        left
        rw [nuevoNodeLocker_of_some this nmb p hne hb] at h1
        have ht : issuedTag this nmb = [] := by
          unfold issuedTag
          rw [hb]
        rw [ht] at h2
        exact ⟨h2.symm, by rw [← h1]⟩
  | borraNodeLocker nmb =>
    simp only [step, Option.some.injEq, Prod.mk.injEq] at h
    left
    exact ⟨h.2.symm, by rw [← h.1]; exact borraNodeLocker_tag this nmb⟩
  | clearAll =>
    left
    unfold step at h
    cases hc : this.clearAll with
    | none => rw [hc] at h; simp at h
    | some o =>
      rw [hc] at h
      simp only [Option.some.injEq, Prod.mk.injEq] at h
      exact ⟨h.2.symm, by rw [← h.1]; exact clearAll_tag this o hc⟩

theorem run_tags (ops : List Op) : ∀ this : NodeLockers,
    INT_MIN ≤ this.tag →
    this.tag + ((run this ops).2.length : Int) ≤ 2147483648 →
    (run this ops).2
      = (List.range (run this ops).2.length).map (fun (i : Nat) => this.tag + (i : Int)) := by
  induction ops with
  | nil => intro this _ _; simp [run]
  | cons op ops ih =>
    intro this hmin hlen
    cases hs : step this op with
    | none => simp [run, hs]
    | some r =>
      obtain ⟨next, tags⟩ := r
      have hrun : run this (op :: ops) = ((run next ops).1, tags ++ (run next ops).2) := by
        simp [run, hs]
      rw [hrun] at hlen ⊢
      rcases step_tags this next op tags hs with ⟨ht, hn⟩ | ⟨ht, hn⟩
      · subst ht
        simp only [List.nil_append] at hlen ⊢
        have h := ih next (hn ▸ hmin) (hn ▸ hlen)
        rw [hn] at h
        exact h
      · subst ht
        simp only [List.singleton_append, List.length_cons] at hlen ⊢
        push_cast at hlen
        by_cases hzero : (run next ops).2.length = 0
        · have hnil : (run next ops).2 = [] := List.length_eq_zero.mp hzero
          rw [hnil]
          simp [List.range_succ]
        · have hpos : (1 : Int) ≤ ((run next ops).2.length : Int) := by omega
          have hnext : next.tag = this.tag + 1 := by
            rw [hn]
            apply int_wrap_of_range
            · omega
            · unfold INT_MAX; omega
          have h := ih next (by rw [hnext]; omega) (by rw [hnext]; omega)
          rw [hnext] at h
          rw [List.range_succ_eq_map, List.map_cons, List.map_map]
          congr 1
          · simp
          · rw [h]
            simp only [List.length_map, List.length_range]
            apply List.map_congr_left
            intro i _
            simp only [Function.comp]
            push_cast
            ring

/-- C9 (amended): along every finite sequence of `nuevoNodeLocker`, `borraNodeLocker` and
`clearAll` calls on a newly constructed registry in which at most 2^31 lockers are
created, the tags given to newly created lockers are 0, 1, 2, ... in creation order: each
creation gets the previous tag plus one, so the tags are strictly increasing and no tag
is issued twice, whatever was removed or cleared in between. -/
theorem C9_tag_monotonicity (owr : Option Mesh) (ops : List Op)
    (hbound : (run (ctor owr) ops).2.length ≤ 2147483648) :
    (run (ctor owr) ops).2
      = (List.range (run (ctor owr) ops).2.length).map (fun (i : Nat) => (i : Int)) ∧
    (run (ctor owr) ops).2.Pairwise (fun a b => a < b) ∧
    (run (ctor owr) ops).2.Nodup := by
  have hz : (ctor owr).tag = 0 := rfl
  have h := run_tags ops (ctor owr) (by rw [hz]; decide) (by rw [hz]; omega)
  have h1 : (run (ctor owr) ops).2
      = (List.range (run (ctor owr) ops).2.length).map (fun (i : Nat) => (i : Int)) := by
    rw [hz] at h
    simpa using h
  have h2 : (run (ctor owr) ops).2.Pairwise (fun a b => a < b) := by
    rw [h1, List.pairwise_map]
    refine List.Pairwise.imp ?_ (List.pairwise_lt_range _)
    intro a b hab
    exact Int.ofNat_lt.mpr hab
  refine ⟨h1, h2, ?_⟩
  refine List.Pairwise.imp ?_ h2
  intro a b hab
  exact ne_of_lt hab

/-- Witness of C9 (amended): seven calls on a registry owned by a mesh with a domain;
three lockers are created, with tags 0, 1, 2. -/
theorem C9_tag_monotonicity_witness :
    (run (ctor (some ⟨true⟩))
      [Op.nuevoNodeLocker "H1", Op.nuevoNodeLocker "H1", Op.borraNodeLocker "H1",
       Op.nuevoNodeLocker "H1", Op.nuevoNodeLocker "", Op.clearAll,
       Op.nuevoNodeLocker "H2"]).2 = [0, 1, 2] :=
  (C9_tag_monotonicity (some ⟨true⟩)
    [Op.nuevoNodeLocker "H1", Op.nuevoNodeLocker "H1", Op.borraNodeLocker "H1",
     Op.nuevoNodeLocker "H1", Op.nuevoNodeLocker "", Op.clearAll,
     Op.nuevoNodeLocker "H2"] (by decide)).1.trans (by decide)

end NodeLockers
end XC

namespace XC
namespace NodeLockers

/-! Exhausting the counter -/

theorem run_create_remove (s : NodeLockers) (rest : List Op) (hnil : s.node_lockers = [])
    (hmin : INT_MIN ≤ s.tag) (hmax : s.tag < INT_MAX) :
    run s (Op.nuevoNodeLocker "a" :: Op.borraNodeLocker "a" :: rest)
      = ((run { s with tag := s.tag + 1 } rest).1,
         s.tag :: (run { s with tag := s.tag + 1 } rest).2) := by
  have hne : ("a" : String) ≠ "" := by decide
  have hb : s.busca_node_locker "a" = none := by
    simp [busca_node_locker, hnil, map_node_lockers.find]
  have hwrap : int_wrap (s.tag + 1) = s.tag + 1 :=
    int_wrap_of_range _ (by omega) (by omega)
  have h1 : s.nuevoNodeLocker "a" =
      { retval := some (NodeLocker.new s.tag)
        state := { s with node_lockers := [("a", NodeLocker.new s.tag)], tag := s.tag + 1 }
        trace := [] } := by
    rw [nuevoNodeLocker_of_none s "a" hne hb, hwrap, hnil]
    rfl
  have htag : issuedTag s "a" = [s.tag] := by
    unfold issuedTag
    rw [h1, hb]
    rfl
  have h2 : ({ s with node_lockers := [("a", NodeLocker.new s.tag)]
                      tag := s.tag + 1 } : NodeLockers).borraNodeLocker "a"
      = { retval := (), state := { s with node_lockers := [], tag := s.tag + 1 }
          trace := [Event.delete "a" (NodeLocker.new s.tag)] } := by
    simp [borraNodeLocker, map_node_lockers.find, map_node_lockers.erase]
  have hs : ({ s with node_lockers := [], tag := s.tag + 1 } : NodeLockers)
      = { s with tag := s.tag + 1 } := by
    rw [← hnil]
  simp only [run, step, h1, htag, h2, hs, List.nil_append, List.singleton_append]

theorem run_repeatOps (n : Nat) : ∀ (s : NodeLockers) (rest : List Op),
    s.node_lockers = [] → INT_MIN ≤ s.tag → s.tag + (n : Int) ≤ INT_MAX →
    run s (repeatOps n [Op.nuevoNodeLocker "a", Op.borraNodeLocker "a"] ++ rest)
      = ((run { s with tag := s.tag + (n : Int) } rest).1,
         (List.range n).map (fun (i : Nat) => s.tag + (i : Int))
           ++ (run { s with tag := s.tag + (n : Int) } rest).2) := by
  induction n with
  | zero =>
    intro s rest _ _ _
    have hs : ({ s with tag := s.tag + ((0 : Nat) : Int) } : NodeLockers) = s := by
      cases s
      simp
    rw [hs]
    simp [repeatOps]
  | succ n ih =>
    intro s rest hnil hmin hmax
    push_cast at hmax
    have hrep : repeatOps (n + 1) [Op.nuevoNodeLocker "a", Op.borraNodeLocker "a"] ++ rest
        = Op.nuevoNodeLocker "a" :: Op.borraNodeLocker "a"
          :: (repeatOps n [Op.nuevoNodeLocker "a", Op.borraNodeLocker "a"] ++ rest) := by
      simp [repeatOps]
    rw [hrep, run_create_remove s _ hnil hmin (by omega)]
    have h := ih { s with tag := s.tag + 1 } rest hnil
      (by show INT_MIN ≤ s.tag + 1; omega) (by show s.tag + 1 + (n : Int) ≤ INT_MAX; omega)
    have hs : ({ ({ s with tag := s.tag + 1 } : NodeLockers) with
          tag := s.tag + 1 + (n : Int) } : NodeLockers)
        = { s with tag := s.tag + ((n + 1 : Nat) : Int) } := by
      have : s.tag + 1 + (n : Int) = s.tag + ((n + 1 : Nat) : Int) := by push_cast; ring
      simp only [this]
    rw [hs] at h
    rw [h]
    refine Prod.ext rfl ?_
    simp only
    rw [List.range_succ_eq_map, List.map_cons, List.map_map, List.cons_append]
    congr 1
    · simp
    · congr 1
      apply List.map_congr_left
      intro i _
      simp only [Function.comp]
      push_cast
      ring

/-- C9 (counterexample): on a new registry, create and remove "a" 2^31 - 1 times, then
create, remove and create it again.  The tags issued are 0, 1, ..., 2147483646, then
2147483647 and then -2147483648: the last creation gets a smaller tag than the one
before it, so the tags are not strictly increasing. -/
theorem C9_counterexample :
    (run (ctor none) overflowOps).2
      = (List.range 2147483647).map (fun (i : Nat) => (i : Int))
          ++ [2147483647, -2147483648] ∧
    ¬ (run (ctor none) overflowOps).2.Pairwise (fun a b => a < b) := by
  have h := run_repeatOps 2147483647 (ctor none)
    [Op.nuevoNodeLocker "a", Op.borraNodeLocker "a", Op.nuevoNodeLocker "a"]
    rfl (by decide) (by decide)
  have htail : (run ({ owner := (ctor none).owner, node_lockers := (ctor none).node_lockers
                       tag := (ctor none).tag + ((2147483647 : Nat) : Int)
                       code := (ctor none).code } : NodeLockers)
      [Op.nuevoNodeLocker "a", Op.borraNodeLocker "a", Op.nuevoNodeLocker "a"]).2
      = [2147483647, -2147483648] := by
    decide
  have hmap : List.map (fun (i : Nat) => (ctor none).tag + (i : Int)) (List.range 2147483647)
      = List.map (fun (i : Nat) => (i : Int)) (List.range 2147483647) := by
    apply List.map_congr_left
    intro i _
    show (0 : Int) + (i : Int) = (i : Int)
    omega
  have htags : (run (ctor none) overflowOps).2
      = (List.range 2147483647).map (fun (i : Nat) => (i : Int))
          ++ [2147483647, -2147483648] := by
    unfold overflowOps
    rw [h]
    dsimp only
    rw [htail, hmap]
  refine ⟨htags, ?_⟩
  rw [htags]
  intro hp
  have h2 := (List.pairwise_append.mp hp).2.1
  have h3 := (List.pairwise_cons.mp h2).1 (-2147483648) (List.mem_singleton.mpr rfl)
  exact absurd h3 (by decide)

end NodeLockers
end XC

namespace XC
namespace NodeLockers

/-! The exchange: `sendData` and `recvData` -/

theorem sendData_loop_labels (cp : CommParameters) (m : map_node_lockers) :
    ∀ loc, (sendData_loop cp m loc).2.1 = m.keys ∧
      (sendData_loop cp m loc).2.2 = m.map (fun i => cp.sendMovable i.2) := by
  induction m with
  | nil => intro loc; exact ⟨rfl, rfl⟩
  | cons e rest ih =>
    intro loc
    obtain ⟨k, p⟩ := e
    obtain ⟨h1, h2⟩ := ih (loc + 1)
    simp only [map_node_lockers.keys] at h1
    simp [sendData_loop, map_node_lockers.keys, h1, h2]

theorem sendData_frame_of_pos (this : NodeLockers) (cp : CommParameters)
    (hpos : 0 < this.size) :
    (this.sendData cp).2 =
      { pos0 := this.tag, pos1 := this.size
        labelData := some this.node_lockers.keys
        objData := some (this.node_lockers.map (fun i => cp.sendMovable i.2))
        code := this.code } := by
  obtain ⟨h1, h2⟩ := sendData_loop_labels cp this.node_lockers 0
  simp only [size] at hpos
  simp [sendData, hpos, h1, h2, getTag, size]

theorem sendData_frame_of_zero (this : NodeLockers) (cp : CommParameters)
    (hzero : this.size = 0) :
    (this.sendData cp).2 =
      { pos0 := this.tag, pos1 := 0, labelData := none, objData := none
        code := this.code } := by
  simp only [size] at hzero
  simp [sendData, hzero, getTag]

theorem recvData_step_empty (cp : CommParameters) (labelData : List String)
    (objData : List Payload) (acc : Outcome Int) (i : Nat)
    (h : labelData.getD i "" = "") :
    (recvData_step cp labelData objData acc i).state = acc.state := by
  unfold recvData_step
  generalize labelData.getD i "" = label at h
  subst h
  simp only [nuevoNodeLocker_empty]

theorem recvData_step_nonempty (cp : CommParameters) (labelData : List String)
    (objData : List Payload) (acc : Outcome Int) (i : Nat)
    (h : labelData.getD i "" ≠ "") :
    ∃ tmp,
      (acc.state.busca_node_locker (labelData.getD i "") = some tmp ∨
        (acc.state.busca_node_locker (labelData.getD i "") = none ∧
          tmp = NodeLocker.new acc.state.tag)) ∧
      (recvData_step cp labelData objData acc i).state.busca_node_locker (labelData.getD i "")
        = some (cp.receiveMovable tmp (objData.getD i [])) ∧
      ∀ k, k ≠ labelData.getD i "" →
        (recvData_step cp labelData objData acc i).state.busca_node_locker k
          = acc.state.busca_node_locker k := by
  unfold recvData_step
  generalize labelData.getD i "" = label at h
  generalize objData.getD i [] = payload
  cases hb : acc.state.busca_node_locker label with
  | some p =>
    refine ⟨p, Or.inl rfl, ?_, ?_⟩
    · simp only [nuevoNodeLocker_of_some _ _ p h hb, busca_node_locker]
      exact map_node_lockers.find_assign_self _ _ _
    · intro k hk
      simp only [nuevoNodeLocker_of_some _ _ p h hb, busca_node_locker]
      exact map_node_lockers.find_assign_ne _ _ _ k hk
  | none =>
    refine ⟨NodeLocker.new acc.state.tag, Or.inr ⟨rfl, rfl⟩, ?_, ?_⟩
    · simp only [nuevoNodeLocker_of_none _ _ h hb, busca_node_locker]
      exact map_node_lockers.find_assign_self _ _ _
    · intro k hk
      simp only [nuevoNodeLocker_of_none _ _ h hb, busca_node_locker]
      rw [map_node_lockers.find_assign_ne _ _ _ k hk,
        map_node_lockers.find_assign_ne _ _ _ k hk]

theorem recvData_step_busca_ne (cp : CommParameters) (labelData : List String)
    (objData : List Payload) (acc : Outcome Int) (i : Nat) (k : String)
    (hk : k ≠ labelData.getD i "") :
    (recvData_step cp labelData objData acc i).state.busca_node_locker k
      = acc.state.busca_node_locker k := by
  by_cases h : labelData.getD i "" = ""
  · rw [recvData_step_empty cp labelData objData acc i h]
  · obtain ⟨_, _, _, h3⟩ := recvData_step_nonempty cp labelData objData acc i h
    exact h3 k hk

theorem recvData_step_ordered (cp : CommParameters) (labelData : List String)
    (objData : List Payload) (acc : Outcome Int) (i : Nat)
    (ho : acc.state.node_lockers.Ordered) :
    (recvData_step cp labelData objData acc i).state.node_lockers.Ordered := by
  by_cases h : labelData.getD i "" = ""
  · rw [recvData_step_empty cp labelData objData acc i h]; exact ho
  · unfold recvData_step
    generalize labelData.getD i "" = label at h
    generalize objData.getD i [] = payload
    cases hb : acc.state.busca_node_locker label with
    | some p =>
      simp only [nuevoNodeLocker_of_some _ _ p h hb]
      exact map_node_lockers.ordered_assign _ _ _ ho
    | none =>
      simp only [nuevoNodeLocker_of_none _ _ h hb]
      exact map_node_lockers.ordered_assign _ _ _
        (map_node_lockers.ordered_assign _ _ _ ho)

end NodeLockers
end XC

namespace XC
namespace NodeLockers

theorem recvData_fold (cp : CommParameters) (labelData : List String)
    (objData : List Payload) (idx : List Nat) : ∀ acc : Outcome Int,
    idx.Nodup →
    (∀ i ∈ idx, ∀ j ∈ idx, labelData.getD i "" = labelData.getD j "" → i = j) →
    (∀ k, (∀ i ∈ idx, labelData.getD i "" ≠ k) →
      (idx.foldl (recvData_step cp labelData objData) acc).state.busca_node_locker k
        = acc.state.busca_node_locker k) ∧
    (∀ i ∈ idx, labelData.getD i "" ≠ "" →
      ∃ tmp,
        (acc.state.busca_node_locker (labelData.getD i "") = some tmp ∨
          (acc.state.busca_node_locker (labelData.getD i "") = none ∧
            ∃ t, tmp = NodeLocker.new t)) ∧
        (idx.foldl (recvData_step cp labelData objData) acc).state.busca_node_locker
            (labelData.getD i "")
          = some (cp.receiveMovable tmp (objData.getD i []))) ∧
    (acc.state.node_lockers.Ordered →
      (idx.foldl (recvData_step cp labelData objData) acc).state.node_lockers.Ordered) := by
  induction idx with
  | nil =>
    intro acc _ _
    refine ⟨fun _ _ => rfl, ?_, fun h => h⟩
    intro i hi
    simp at hi
  | cons a rest ih =>
    intro acc hnd hinj
    have hnd2 := List.nodup_cons.mp hnd
    have hinj2 : ∀ i ∈ rest, ∀ j ∈ rest,
        labelData.getD i "" = labelData.getD j "" → i = j :=
      fun i hi j hj h => hinj i (List.mem_cons_of_mem _ hi) j (List.mem_cons_of_mem _ hj) h
    obtain ⟨ih1, ih2, ih3⟩ := ih (recvData_step cp labelData objData acc a) hnd2.2 hinj2
    simp only [List.foldl_cons]
    refine ⟨?_, ?_, ?_⟩
    · intro k hk
      rw [ih1 k (fun i hi => hk i (List.mem_cons_of_mem _ hi))]
      exact recvData_step_busca_ne cp labelData objData acc a k
        (Ne.symm (hk a (List.mem_cons_self _ _)))
    · intro i hi hne
      rcases List.mem_cons.mp hi with hia | hir
      · subst hia
        obtain ⟨tmp, h1, h2, _⟩ := recvData_step_nonempty cp labelData objData acc i hne
        refine ⟨tmp, ?_, ?_⟩
        · rcases h1 with h1 | ⟨h1, h1t⟩
          · exact Or.inl h1
          · exact Or.inr ⟨h1, _, h1t⟩
        · rw [ih1 _ ?_]
          · exact h2
          · intro j hj hc
            have := hinj j (List.mem_cons_of_mem _ hj) i (List.mem_cons_self _ _) hc
            exact hnd2.1 (this ▸ hj)
      · obtain ⟨tmp, h1, h2⟩ := ih2 i hir hne
        have hdiff : labelData.getD i "" ≠ labelData.getD a "" := by
          intro hc
          have := hinj i hi a (List.mem_cons_self _ _) hc
          exact hnd2.1 (this ▸ hir)
        rw [recvData_step_busca_ne cp labelData objData acc a _ hdiff] at h1
        exact ⟨tmp, h1, h2⟩
    · intro ho
      exact ih3 (recvData_step_ordered cp labelData objData acc a ho)

theorem recvData_state_busca (this : NodeLockers) (cp : CommParameters) (f : Frame)
    (k : String) :
    (this.recvData cp f).state.busca_node_locker k =
      (if f.pos1 > 0 then
        ((List.range f.pos1).foldl
          (recvData_step cp (f.labelData.getD []) (f.objData.getD []))
          { retval := cp.result (Call.receive 2) + cp.result (Call.receive 3)
            state := { this with tag := f.pos0 }, trace := [] }).state.busca_node_locker k
       else this.busca_node_locker k) := by
  unfold recvData
  by_cases h : f.pos1 > 0
  · simp only [h, if_true, busca_node_locker]
  · simp only [h, if_false, busca_node_locker]

theorem recvData_state_node_lockers (this : NodeLockers) (cp : CommParameters) (f : Frame) :
    (this.recvData cp f).state.node_lockers =
      (if f.pos1 > 0 then
        ((List.range f.pos1).foldl
          (recvData_step cp (f.labelData.getD []) (f.objData.getD []))
          { retval := cp.result (Call.receive 2) + cp.result (Call.receive 3)
            state := { this with tag := f.pos0 }, trace := [] }).state.node_lockers
       else this.node_lockers) := by
  unfold recvData
  by_cases h : f.pos1 > 0
  · simp only [h, if_true]
  · simp only [h, if_false]

theorem keys_getD_inj (m : map_node_lockers) (ho : m.Ordered) (i j : Nat)
    (hi : i < m.length) (hj : j < m.length)
    (h : m.keys.getD i "" = m.keys.getD j "") : i = j := by
  have hnd : m.keys.Nodup := by
    refine List.Pairwise.imp ?_ ho
    intro a b hab hc
    exact less_irrefl b (hc ▸ hab)
  have hli : i < m.keys.length := by simpa [map_node_lockers.keys] using hi
  have hlj : j < m.keys.length := by simpa [map_node_lockers.keys] using hj
  rw [List.getD_eq_getElem _ _ hli, List.getD_eq_getElem _ _ hlj] at h
  exact (List.Nodup.getElem_inj_iff hnd).mp h

theorem getD_of_getElem? (m : map_node_lockers) (cp : CommParameters) (i : Nat) (k : String)
    (p : NodeLocker) (h : m[i]? = some (k, p)) :
    i < m.length ∧ m.keys.getD i "" = k ∧
      (m.map (fun e => cp.sendMovable e.2)).getD i [] = cp.sendMovable p := by
  have hi : i < m.length := by
    by_contra hc
    rw [List.getElem?_eq_none (not_lt.mp hc)] at h
    exact Option.noConfusion h
  refine ⟨hi, ?_, ?_⟩
  · simp [map_node_lockers.keys, List.getD_eq_getElem?_getD, h]
  · simp [List.getD_eq_getElem?_getD, h]

end NodeLockers
end XC

namespace XC

theorem decode_encodeConstraints (cs : List SFreedom_Constraint) :
    decodeConstraints (encodeConstraints cs) = cs := by
  induction cs with
  | nil => rfl
  | cons c cs ih => simp [encodeConstraints, decodeConstraints, ih]

namespace map_node_lockers

theorem keys_eq_of_ordered (m1 m2 : map_node_lockers) (h1 : Ordered m1) (h2 : Ordered m2)
    (hmem : ∀ k, k ∈ keys m1 ↔ k ∈ keys m2) : keys m1 = keys m2 := by
  have nd : ∀ l : List String, l.Pairwise less → l.Nodup := by
    intro l hl
    refine List.Pairwise.imp ?_ hl
    intro a b hab hc
    exact less_irrefl b (hc ▸ hab)
  haveI : IsAntisymm String less :=
    ⟨fun a b hab hba => absurd (less_trans hab hba) (less_irrefl a)⟩
  exact List.eq_of_perm_of_sorted ((List.perm_ext_iff_of_nodup (nd _ h1) (nd _ h2)).mpr hmem)
    h1 h2

end map_node_lockers

namespace NodeLockers

theorem recvData_sendData_entry (R : NodeLockers) (cp : CommParameters)
    (recv : NodeLockers) (hord : R.node_lockers.Ordered) (hpos : 0 < R.size)
    (i : Nat) (k : String) (p : NodeLocker) (hi : R.node_lockers[i]? = some (k, p))
    (hne : k ≠ "") :
    ∃ tmp,
      (recv.busca_node_locker k = some tmp ∨
        (recv.busca_node_locker k = none ∧ ∃ t, tmp = NodeLocker.new t)) ∧
      (recv.recvData cp (R.sendData cp).2).state.busca_node_locker k
        = some (cp.receiveMovable tmp (cp.sendMovable p)) := by
  obtain ⟨hlt, hk, hp⟩ := getD_of_getElem? R.node_lockers cp i k p hi
  rw [recvData_state_busca, sendData_frame_of_pos R cp hpos]
  simp only [hpos, if_true, gt_iff_lt, Option.getD_some]
  have hinj : ∀ a ∈ List.range R.size, ∀ b ∈ List.range R.size,
      R.node_lockers.keys.getD a "" = R.node_lockers.keys.getD b "" → a = b := by
    intro a ha b hb hab
    exact keys_getD_inj R.node_lockers hord a b (List.mem_range.mp ha)
      (List.mem_range.mp hb) hab
  obtain ⟨_, h2, _⟩ := recvData_fold cp R.node_lockers.keys
    (R.node_lockers.map (fun e => cp.sendMovable e.2)) (List.range R.size)
    { retval := cp.result (Call.receive 2) + cp.result (Call.receive 3)
      state := { recv with tag := R.tag }, trace := [] }
    (List.nodup_range _) hinj
  have h3 := h2 i (List.mem_range.mpr hlt) (by rw [hk]; exact hne)
  rw [hk, hp] at h3
  exact h3

/-- C5: for a registry with at least one locker, `sendData` writes the keys in their
ascending, duplicate-free map order as the label block and, at the same positions, the
serializations of the lockers registered under those keys as the payload block.
`recvData` on that frame, in any receiving registry, leaves under the label of position
`i` the locker it found there or created for it, hydrated from the payload of
position `i`. -/
theorem C5_positional_pairing (R : NodeLockers) (cp : CommParameters) (recv : NodeLockers)
    (hord : R.node_lockers.Ordered) (hpos : 0 < R.size) :
    (R.sendData cp).2.labelData = some R.node_lockers.keys ∧
    (R.sendData cp).2.objData = some (R.node_lockers.map (fun e => cp.sendMovable e.2)) ∧
    (∀ labels, (R.sendData cp).2.labelData = some labels → labels.Pairwise less) ∧
    ∀ i k p, R.node_lockers[i]? = some (k, p) →
      ((R.sendData cp).2.labelData.getD [])[i]? = some k ∧
      ((R.sendData cp).2.objData.getD [])[i]? = some (cp.sendMovable p) ∧
      R.busca_node_locker k = some p ∧
      (k ≠ "" → ∃ tmp,
        (recv.busca_node_locker k = some tmp ∨
          (recv.busca_node_locker k = none ∧ ∃ t, tmp = NodeLocker.new t)) ∧
        (recv.recvData cp (R.sendData cp).2).state.busca_node_locker k
          = some (cp.receiveMovable tmp
              (((R.sendData cp).2.objData.getD []).getD i []))) := by
  have hf := sendData_frame_of_pos R cp hpos
  refine ⟨by rw [hf], by rw [hf], ?_, ?_⟩
  · intro labels hl
    rw [hf] at hl
    simp only [Option.some.injEq] at hl
    rw [← hl]
    exact hord
  · intro i k p hi
    obtain ⟨hlt, hk, hp⟩ := getD_of_getElem? R.node_lockers cp i k p hi
    have hpay : ((R.sendData cp).2.objData.getD []).getD i [] = cp.sendMovable p := by
      rw [hf]; exact hp
    refine ⟨?_, ?_, ?_, ?_⟩
    · rw [hf]; simp [map_node_lockers.keys, hi]
    · rw [hf]; simp [hi]
    · exact map_node_lockers.find_of_mem _ k p hord (List.getElem?_mem hi)
    · intro hne
      rw [hpay]
      exact recvData_sendData_entry R cp recv hord hpos i k p hi hne

end NodeLockers
end XC

namespace XC
namespace NodeLockers

/-- Witness of C5: the sample registry sent over the sample carrier and received by a new
registry. -/
theorem C5_positional_pairing_witness :
    (sampleRegistry.sendData sampleComm).2.labelData = some ["H1", "H2"] ∧
    ∃ tmp, ((ctor none).recvData sampleComm
        (sampleRegistry.sendData sampleComm).2).state.busca_node_locker "H2"
      = some (sampleComm.receiveMovable tmp [5, 0, 2]) :=
  ⟨(C5_positional_pairing sampleRegistry sampleComm (ctor none) (by decide)
      (by decide)).1.trans (by decide),
   (((C5_positional_pairing sampleRegistry sampleComm (ctor none) (by decide)
      (by decide)).2.2.2 1 "H2" { tag := 1, constraints := [⟨5, 0, 2⟩] }
      (by decide)).2.2.2 (by decide)).imp (fun _ h => h.2)⟩

theorem recvData_sendData_busca (R : NodeLockers) (cp : CommParameters) (recv : NodeLockers)
    (hord : R.node_lockers.Ordered) (hne : "" ∉ R.node_lockers.keys) (nmb : String) :
    (∀ p, R.busca_node_locker nmb = some p → ∃ tmp,
      (recv.recvData cp (R.sendData cp).2).state.busca_node_locker nmb
        = some (cp.receiveMovable tmp (cp.sendMovable p))) ∧
    (R.busca_node_locker nmb = none →
      (recv.recvData cp (R.sendData cp).2).state.busca_node_locker nmb
        = recv.busca_node_locker nmb) := by
  by_cases hz : R.size = 0
  · have hnil : R.node_lockers = [] := List.length_eq_zero.mp hz
    constructor
    · intro p hp
      simp [busca_node_locker, hnil, map_node_lockers.find] at hp
    · intro _
      rw [recvData_state_busca, sendData_frame_of_zero R cp hz]
      simp
  · have hpos : 0 < R.size := Nat.pos_of_ne_zero hz
    constructor
    · intro p hp
      have hmem := map_node_lockers.mem_of_find _ nmb p hp
      obtain ⟨i, hi⟩ := List.getElem?_of_mem hmem
      have hnmb : nmb ≠ "" := by
        intro hc
        apply hne
        rw [← hc]
        exact List.mem_map.mpr ⟨(nmb, p), hmem, rfl⟩
      obtain ⟨tmp, _, h⟩ := recvData_sendData_entry R cp recv hord hpos i nmb p hi hnmb
      exact ⟨tmp, h⟩
    · intro hnone
      rw [recvData_state_busca, sendData_frame_of_pos R cp hpos]
      simp only [hpos, if_true, gt_iff_lt, Option.getD_some]
      have hinj : ∀ a ∈ List.range R.size, ∀ b ∈ List.range R.size,
          R.node_lockers.keys.getD a "" = R.node_lockers.keys.getD b "" → a = b := by
        intro a ha b hb hab
        exact keys_getD_inj R.node_lockers hord a b (List.mem_range.mp ha)
          (List.mem_range.mp hb) hab
      obtain ⟨h1, _, _⟩ := recvData_fold cp R.node_lockers.keys
        (R.node_lockers.map (fun e => cp.sendMovable e.2)) (List.range R.size)
        { retval := cp.result (Call.receive 2) + cp.result (Call.receive 3)
          state := { recv with tag := R.tag }, trace := [] }
        (List.nodup_range _) hinj
      rw [h1 nmb ?_]
      · rfl
      · intro a ha hc
        have hlt : a < R.node_lockers.keys.length := by
          simpa [map_node_lockers.keys, size] using List.mem_range.mp ha
        rw [List.getD_eq_getElem _ _ hlt] at hc
        have hin : nmb ∈ R.node_lockers.keys := hc ▸ List.getElem_mem _
        have := (map_node_lockers.find_eq_none_iff _ nmb).mp hnone
        exact this hin

end NodeLockers
end XC

namespace XC
namespace NodeLockers

theorem recvData_fold_ordered (cp : CommParameters) (labelData : List String)
    (objData : List Payload) (idx : List Nat) : ∀ acc : Outcome Int,
    acc.state.node_lockers.Ordered →
    (idx.foldl (recvData_step cp labelData objData) acc).state.node_lockers.Ordered := by
  induction idx with
  | nil => intro acc h; exact h
  | cons a rest ih =>
    intro acc h
    exact ih _ (recvData_step_ordered cp labelData objData acc a h)

theorem recvData_ordered (this : NodeLockers) (cp : CommParameters) (f : Frame)
    (ho : this.node_lockers.Ordered) : (this.recvData cp f).state.node_lockers.Ordered := by
  rw [recvData_state_node_lockers]
  by_cases h : f.pos1 > 0
  · simp only [h, if_true]
    exact recvData_fold_ordered cp _ _ _ _ ho
  · simp only [h, if_false]
    exact ho

/-- C4: round trip of a registry.  Let `R` be a registry (keys ascending, none of them
empty) and let the serialization of lockers round-trip on their constraints.  Running
`sendData` on `R` and `recvData` on a newly constructed registry over the frame so
produced gives a registry with as many lockers as `R`, the same names, and under every
name a locker whose constraints equal those of the locker of `R` with that name. -/
theorem C4_round_trip (R : NodeLockers) (cp : CommParameters) (owr : Option Mesh)
    (hord : R.node_lockers.Ordered) (hne : "" ∉ R.node_lockers.keys)
    (hrt : ∀ x y, (cp.receiveMovable x (cp.sendMovable y)).constraints = y.constraints) :
    ((ctor owr).recvData cp (R.sendData cp).2).state.size = R.size ∧
    ((ctor owr).recvData cp (R.sendData cp).2).state.node_lockers.keys
      = R.node_lockers.keys ∧
    ∀ nmb,
      (((ctor owr).recvData cp (R.sendData cp).2).state.busca_node_locker nmb).map
          NodeLocker.constraints
        = (R.busca_node_locker nmb).map NodeLocker.constraints := by
  have hcontent : ∀ nmb,
      (((ctor owr).recvData cp (R.sendData cp).2).state.busca_node_locker nmb).map
          NodeLocker.constraints
        = (R.busca_node_locker nmb).map NodeLocker.constraints := by
    intro nmb
    obtain ⟨h1, h2⟩ := recvData_sendData_busca R cp (ctor owr) hord hne nmb
    cases hb : R.busca_node_locker nmb with
    | none =>
      rw [h2 hb]
      rfl
    | some p =>
      obtain ⟨tmp, ht⟩ := h1 p hb
      rw [ht]
      exact congrArg some (hrt tmp p)
  have hkeys : ((ctor owr).recvData cp (R.sendData cp).2).state.node_lockers.keys
      = R.node_lockers.keys := by
    apply map_node_lockers.keys_eq_of_ordered _ _
      (recvData_ordered _ cp _ map_node_lockers.ordered_nil) hord
    intro k
    rw [← map_node_lockers.find_isSome_iff, ← map_node_lockers.find_isSome_iff]
    have := congrArg Option.isSome (hcontent k)
    simp only [busca_node_locker] at this
    cases h1 : ((ctor owr).recvData cp (R.sendData cp).2).state.node_lockers.find k <;>
      cases h2 : R.node_lockers.find k <;> simp [h1, h2] at this ⊢
  refine ⟨?_, hkeys, hcontent⟩
  have := congrArg List.length hkeys
  simpa [map_node_lockers.keys, size] using this

/-- Witness of C4: "H1" with three constraints and "H2" with one, sent over the sample
carrier, arrive as "H1" with three and "H2" with one. -/
theorem C4_round_trip_witness :
    ((ctor none).recvData sampleComm (sampleRegistry.sendData sampleComm).2).state.size = 2 ∧
    (((ctor none).recvData sampleComm
        (sampleRegistry.sendData sampleComm).2).state.busca_node_locker "H1").map
      NodeLocker.constraints = some [⟨5, 2, 1⟩, ⟨6, 0, 1⟩, ⟨7, 1, 1⟩] ∧
    (((ctor none).recvData sampleComm
        (sampleRegistry.sendData sampleComm).2).state.busca_node_locker "H2").map
      NodeLocker.constraints = some [⟨5, 0, 2⟩] :=
  ⟨(C4_round_trip sampleRegistry sampleComm none (by decide) (by decide)
      (fun _ y => decode_encodeConstraints y.constraints)).1.trans (by decide),
   ((C4_round_trip sampleRegistry sampleComm none (by decide) (by decide)
      (fun _ y => decode_encodeConstraints y.constraints)).2.2 "H1").trans (by decide),
   ((C4_round_trip sampleRegistry sampleComm none (by decide) (by decide)
      (fun _ y => decode_encodeConstraints y.constraints)).2.2 "H2").trans (by decide)⟩

end NodeLockers
end XC

namespace XC
namespace NodeLockers

/-- C11: removing a name that is not registered (the empty name included) changes
nothing: the whole object (entries, size, tag counter, current-selection name) is as
before; the call writes one diagnostic and makes no call of `Domain::removeNodeLocker`
and no `delete`. -/
theorem C11_borraNodeLocker_absent (this : NodeLockers) (N : String)
    (habs : this.busca_node_locker N = none) :
    (this.borraNodeLocker N).state = this ∧
    (this.borraNodeLocker N).state.node_lockers = this.node_lockers ∧
    (this.borraNodeLocker N).state.size = this.size ∧
    (this.borraNodeLocker N).state.tag = this.tag ∧
    (this.borraNodeLocker N).state.code = this.code ∧
    (this.borraNodeLocker N).trace = [Event.cerr] ∧
    (∀ k p, Event.removeNodeLocker k p ∉ (this.borraNodeLocker N).trace) ∧
    (∀ k p, Event.delete k p ∉ (this.borraNodeLocker N).trace) := by
  rw [borraNodeLocker_of_none this N habs]
  refine ⟨rfl, rfl, rfl, rfl, rfl, rfl, ?_, ?_⟩ <;> intro k p <;> simp

/-- Witness of C11: "H2" and the empty name are removed from the registry holding "H1". -/
theorem C11_borraNodeLocker_absent_witness :
    (((ctor none).nuevoNodeLocker "H1").state.borraNodeLocker "H2").state
      = ((ctor none).nuevoNodeLocker "H1").state ∧
    (((ctor none).nuevoNodeLocker "H1").state.borraNodeLocker "").state
      = ((ctor none).nuevoNodeLocker "H1").state :=
  ⟨(C11_borraNodeLocker_absent ((ctor none).nuevoNodeLocker "H1").state "H2" (by decide)).1,
   (C11_borraNodeLocker_absent ((ctor none).nuevoNodeLocker "H1").state "" (by decide)).1⟩

end NodeLockers
end XC

namespace XC
namespace NodeLockers

/-! Lookups -/

theorem buscaNodeLocker_loop_some (m : map_node_lockers) (t : Int) (q : NodeLocker)
    (h : buscaNodeLocker_loop m t = some q) : q.getTag = t ∧ ∃ k, (k, q) ∈ m := by
  induction m with
  | nil => simp [buscaNodeLocker_loop] at h
  | cons e rest ih =>
    obtain ⟨k1, p1⟩ := e
    by_cases h1 : p1.getTag = t
    · simp only [buscaNodeLocker_loop, h1, if_true, Option.some.injEq] at h
      subst h
      exact ⟨h1, k1, List.mem_cons_self _ _⟩
    · simp only [buscaNodeLocker_loop, h1, if_false] at h
      obtain ⟨h2, k, hk⟩ := ih h
      exact ⟨h2, k, List.mem_cons_of_mem _ hk⟩

theorem buscaNodeLocker_loop_none (m : map_node_lockers) (t : Int) :
    buscaNodeLocker_loop m t = none ↔ ∀ k p, (k, p) ∈ m → p.getTag ≠ t := by
  induction m with
  | nil => simp [buscaNodeLocker_loop]
  | cons e rest ih =>
    obtain ⟨k1, p1⟩ := e
    by_cases h1 : p1.getTag = t
    · simp only [buscaNodeLocker_loop, h1, if_true]
      constructor
      · intro h; exact Option.noConfusion h
      · intro h; exact absurd h1 (h k1 p1 (List.mem_cons_self _ _))
    · simp only [buscaNodeLocker_loop, h1, if_false, ih]
      constructor
      · intro h k p hm
        rcases List.mem_cons.mp hm with heq | hm
        · cases heq; exact h1
        · exact h k p hm
      · intro h k p hm
        exact h k p (List.mem_cons_of_mem _ hm)

/-- C12: lookup by tag.  `buscaNodeLocker(t)` returns a registered locker whose `getTag()`
is `t` whenever some registered locker has tag `t`, and a null pointer exactly when no
registered locker has tag `t` (so always in a registry without entries, e.g. for tag
999).  The function computes a value from the object and has no effect on it. -/
theorem C12_buscaNodeLocker (this : NodeLockers) (t : Int) :
    ((∃ k p, (k, p) ∈ this.node_lockers ∧ p.getTag = t) →
      ∃ q, this.buscaNodeLocker t = some q ∧ q.getTag = t ∧
        ∃ k, (k, q) ∈ this.node_lockers) ∧
    (this.buscaNodeLocker t = none ↔ ∀ k p, (k, p) ∈ this.node_lockers → p.getTag ≠ t) ∧
    (∀ q, this.buscaNodeLocker t = some q →
      q.getTag = t ∧ ∃ k, (k, q) ∈ this.node_lockers) ∧
    (this.node_lockers = [] → this.buscaNodeLocker 999 = none) := by
  refine ⟨?_, buscaNodeLocker_loop_none _ t,
    fun q hq => buscaNodeLocker_loop_some _ t q hq, ?_⟩
  · rintro ⟨k, p, hm, hp⟩
    cases hb : this.buscaNodeLocker t with
    | none => exact absurd hp ((buscaNodeLocker_loop_none _ t).mp hb k p hm)
    | some q =>
      obtain ⟨h1, h2⟩ := buscaNodeLocker_loop_some _ t q hb
      exact ⟨q, rfl, h1, h2⟩
  · intro hnil
    simp [buscaNodeLocker, hnil, buscaNodeLocker_loop]

/-- C13: lookup by name.  `busca_node_locker(nmb)` returns the locker registered under
exactly the key `nmb` when there is one and a null pointer exactly when `nmb` is not a
key.  The function computes a value from the object and has no effect on it; in
particular a miss inserts nothing. -/
theorem C13_busca_node_locker (this : NodeLockers) (nmb : String)
    (hord : this.node_lockers.Ordered) :
    (∀ p, (nmb, p) ∈ this.node_lockers → this.busca_node_locker nmb = some p) ∧
    (∀ p, this.busca_node_locker nmb = some p → (nmb, p) ∈ this.node_lockers) ∧
    (this.busca_node_locker nmb = none ↔ nmb ∉ this.node_lockers.keys) := by
  refine ⟨fun p hp => map_node_lockers.find_of_mem _ nmb p hord hp,
    fun p hp => map_node_lockers.mem_of_find _ nmb p hp,
    map_node_lockers.find_eq_none_iff _ nmb⟩

/-- Witness of C13: in the sample registry "H2" is found and "H3" is not. -/
theorem C13_busca_node_locker_witness :
    sampleRegistry.busca_node_locker "H2" = some { tag := 1, constraints := [⟨5, 0, 2⟩] } ∧
    sampleRegistry.busca_node_locker "H3" = none :=
  ⟨(C13_busca_node_locker sampleRegistry "H2" (by decide)).1 _ (by decide),
   (C13_busca_node_locker sampleRegistry "H3" (by decide)).2.2.mpr (by decide)⟩

end NodeLockers
end XC

namespace XC
namespace NodeLockers

/-! Result codes, the manifest and the trailer -/

theorem recvData_step_retval_of_zero (cp : CommParameters) (labelData : List String)
    (objData : List Payload) (acc : Outcome Int) (i : Nat) (hzero : ∀ c, cp.result c = 0) :
    (recvData_step cp labelData objData acc i).retval = acc.retval := by
  unfold recvData_step
  dsimp only
  split <;> simp [hzero]

theorem recvData_fold_retval_of_zero (cp : CommParameters) (labelData : List String)
    (objData : List Payload) (hzero : ∀ c, cp.result c = 0) (idx : List Nat) :
    ∀ acc : Outcome Int,
      (idx.foldl (recvData_step cp labelData objData) acc).retval = acc.retval := by
  induction idx with
  | nil => intro acc; rfl
  | cons a rest ih =>
    intro acc
    rw [List.foldl_cons, ih, recvData_step_retval_of_zero cp labelData objData acc a hzero]

/-- C14 (what the code does): when every transport call returns 0, `recvData` returns 0
for every receiving registry and every frame, whatever the labels are; a label for which
`nuevoNodeLocker` returns a null pointer only produces diagnostics and leaves the
returned result at the value of a receive in which every entry succeeded. -/
theorem C14_recvData_result_without_failures (this : NodeLockers) (cp : CommParameters)
    (f : Frame) (hzero : ∀ c, cp.result c = 0) :
    (this.recvData cp f).retval = 0 := by
  unfold recvData
  by_cases h : f.pos1 > 0
  · simp only [h, if_true]
    rw [recvData_fold_retval_of_zero cp _ _ hzero]
    simp [hzero]
  · simp only [h, if_false]
    simp [hzero]

/-- Witness of C14: a frame of two entries whose first label is empty.  The loop goes on
(the second entry "H1" is created and hydrated), two diagnostics are written for the
first entry, and the returned result is 0, as for the frame holding "H1" alone. -/
theorem C14_recvData_result_without_failures_witness :
    ((ctor none).recvData sampleComm
      { pos0 := 0, pos1 := 2, labelData := some ["", "H1"]
        objData := some [[1, 2, 3], [5, 0, 2]], code := "H1" }).retval = 0 ∧
    ((ctor none).recvData sampleComm
      { pos0 := 0, pos1 := 2, labelData := some ["", "H1"]
        objData := some [[1, 2, 3], [5, 0, 2]], code := "H1" }).state.node_lockers
      = [("H1", { tag := 0, constraints := [⟨5, 0, 2⟩] })] ∧
    ((ctor none).recvData sampleComm
      { pos0 := 0, pos1 := 2, labelData := some ["", "H1"]
        objData := some [[1, 2, 3], [5, 0, 2]], code := "H1" }).trace
      = [Event.cerr, Event.cerr] ∧
    ((ctor none).recvData sampleComm
      { pos0 := 0, pos1 := 1, labelData := some ["H1"]
        objData := some [[5, 0, 2]], code := "H1" }).retval = 0 :=
  ⟨C14_recvData_result_without_failures (ctor none) sampleComm _ (fun _ => rfl),
   by decide, by decide, by decide⟩

/-- C15 (counterexample): "nil" is the current-selection name of a new registry; after
creating the locker "nil" and removing it, `getCurrentNodeLockerId()` is still "nil". -/
theorem C15_counterexample :
    ((ctor none).nuevoNodeLocker "nil").state.getCurrentNodeLockerId = "nil" ∧
    ((ctor none).nuevoNodeLocker "nil").state.busca_node_locker "nil"
      = some (NodeLocker.new 0) ∧
    ¬ ((((ctor none).nuevoNodeLocker "nil").state.borraNodeLocker
        "nil").state.getCurrentNodeLockerId ≠ "nil") := by
  decide

/-- C15 (amended): removing the current locker does not clear the selection.  When the
current-selection name is `N` and a locker is registered under `N`, then after
`borraNodeLocker(N)` the name returned by `getCurrentNodeLockerId()` is still `N`; it no
longer names an entry, and `getCurrentNodeLockerPtr()` returns a null pointer. -/
theorem C15_borraNodeLocker_keeps_code (this : NodeLockers) (N : String) (p : NodeLocker)
    (hord : this.node_lockers.Ordered)
    (hcur : this.getCurrentNodeLockerId = N)
    (hin : this.busca_node_locker N = some p) :
    (this.borraNodeLocker N).state.getCurrentNodeLockerId = N ∧
    (this.borraNodeLocker N).state.busca_node_locker N = none ∧
    (this.borraNodeLocker N).state.getCurrentNodeLockerPtr = none := by
  rw [borraNodeLocker_of_some this N p hin]
  simp only [getCurrentNodeLockerId] at hcur
  have hnone : map_node_lockers.find (this.node_lockers.erase N) N = none :=
    map_node_lockers.find_erase_self _ _ hord
  refine ⟨hcur, hnone, ?_⟩
  simp only [getCurrentNodeLockerPtr, busca_node_locker, hcur]
  exact hnone

/-- Witness of C15 (amended): the sample registry, whose current name is "H1". -/
theorem C15_borraNodeLocker_keeps_code_witness :
    (sampleRegistry.borraNodeLocker "H1").state.getCurrentNodeLockerId = "H1" ∧
    (sampleRegistry.borraNodeLocker "H1").state.getCurrentNodeLockerPtr = none :=
  ⟨(C15_borraNodeLocker_keeps_code sampleRegistry "H1" _ (by decide) (by decide)
      (by decide : sampleRegistry.busca_node_locker "H1"
        = some { tag := 0, constraints := [⟨5, 2, 1⟩, ⟨6, 0, 1⟩, ⟨7, 1, 1⟩] })).1,
   (C15_borraNodeLocker_keeps_code sampleRegistry "H1" _ (by decide) (by decide)
      (by decide : sampleRegistry.busca_node_locker "H1"
        = some { tag := 0, constraints := [⟨5, 2, 1⟩, ⟨6, 0, 1⟩, ⟨7, 1, 1⟩] })).2.2⟩

/-- C16: the manifest.  `sendData` puts the tag of the registry at position 0 and the
number of lockers at position 1.  With no locker it writes neither the label block nor
the payload block and its result is the result of sending the trailer alone.  `recvData`
on a frame whose count is 0 takes the tag and the trailer from the frame and nothing
else: the entries are unchanged, whatever the frame holds at positions 2 and 3, and its
result is the result of receiving the trailer alone. -/
theorem C16_manifest_layout (this : NodeLockers) (cp : CommParameters) :
    (this.sendData cp).2.pos0 = this.getTag ∧
    (this.sendData cp).2.pos1 = this.size ∧
    (this.size = 0 →
      (this.sendData cp).2.labelData = none ∧
      (this.sendData cp).2.objData = none ∧
      (this.sendData cp).1 = cp.result (Call.sendString DbTagBlock.dbTagData 4)) ∧
    (0 < this.size →
      (this.sendData cp).2.labelData.isSome = true ∧
      (this.sendData cp).2.objData.isSome = true) ∧
    (∀ f : Frame, f.pos1 = 0 →
      (this.recvData cp f).state = { this with tag := f.pos0, code := f.code } ∧
      (this.recvData cp f).state.node_lockers = this.node_lockers ∧
      (this.recvData cp f).trace = [] ∧
      (this.recvData cp f).retval
        = cp.result (Call.receiveString DbTagBlock.dbTagData 4)) := by
  have h01 : (this.sendData cp).2.pos0 = this.getTag ∧ (this.sendData cp).2.pos1 = this.size := by
    by_cases hz : this.size = 0
    · rw [sendData_frame_of_zero this cp hz]
      exact ⟨rfl, hz.symm⟩
    · rw [sendData_frame_of_pos this cp (Nat.pos_of_ne_zero hz)]
      exact ⟨rfl, rfl⟩
  refine ⟨h01.1, h01.2, ?_, ?_, ?_⟩
  · intro hz
    simp only [size] at hz
    simp [sendData, hz]
  · intro hpos
    rw [sendData_frame_of_pos this cp hpos]
    exact ⟨rfl, rfl⟩
  · intro f hf
    simp [recvData, hf]

/-- Witness of C16: a new registry sends the frame (0, 0, -, -, "nil"); the sample
registry receiving it keeps its two lockers. -/
theorem C16_manifest_layout_witness :
    ((ctor none).sendData sampleComm).2
      = { pos0 := 0, pos1 := 0, labelData := none, objData := none, code := "nil" } ∧
    (sampleRegistry.recvData sampleComm ((ctor none).sendData sampleComm).2).state.node_lockers
      = sampleRegistry.node_lockers :=
  ⟨by decide,
   ((C16_manifest_layout sampleRegistry sampleComm).2.2.2.2 _ (by decide)).2.1⟩

end NodeLockers
end XC

namespace XC
namespace NodeLockers

theorem sendData_code (this : NodeLockers) (cp : CommParameters) :
    (this.sendData cp).2.code = this.code := by
  by_cases hz : this.size = 0
  · rw [sendData_frame_of_zero this cp hz]
  · rw [sendData_frame_of_pos this cp (Nat.pos_of_ne_zero hz)]

theorem recvData_code (this : NodeLockers) (cp : CommParameters) (f : Frame) :
    (this.recvData cp f).state.code = f.code := rfl

/-- C17: the trailer.  `sendData` puts the current-selection name of the registry at
position 4 of the frame, with or without lockers, and `recvData` leaves exactly the
string found there as the current-selection name of the receiver.  After sending a
registry (keys ascending, none of them empty) and receiving into a newly constructed
one, the current-selection names agree, and `getCurrentNodeLockerPtr()` is non-null on
the receiver exactly when it is on the sender. -/
theorem C17_trailer_round_trip (R : NodeLockers) (cp : CommParameters) (owr : Option Mesh)
    (hord : R.node_lockers.Ordered) (hne : "" ∉ R.node_lockers.keys) :
    (R.sendData cp).2.code = R.code ∧
    (∀ (recv : NodeLockers) (f : Frame), (recv.recvData cp f).state.code = f.code) ∧
    ((ctor owr).recvData cp (R.sendData cp).2).state.getCurrentNodeLockerId
      = R.getCurrentNodeLockerId ∧
    (((ctor owr).recvData cp (R.sendData cp).2).state.getCurrentNodeLockerPtr.isSome
      = R.getCurrentNodeLockerPtr.isSome) := by
  have hcode : ((ctor owr).recvData cp (R.sendData cp).2).state.code = R.code :=
    (recvData_code _ cp _).trans (sendData_code R cp)
  refine ⟨sendData_code R cp, fun recv f => recvData_code recv cp f, hcode, ?_⟩
  simp only [getCurrentNodeLockerPtr, hcode]
  obtain ⟨h1, h2⟩ := recvData_sendData_busca R cp (ctor owr) hord hne R.code
  cases hb : R.busca_node_locker R.code with
  | none =>
    rw [h2 hb]
    rfl
  | some p =>
    obtain ⟨tmp, ht⟩ := h1 p hb
    rw [ht]
    rfl

/-- Witness of C17: the sample registry, whose current name "H1" is registered. -/
theorem C17_trailer_round_trip_witness :
    ((ctor none).recvData sampleComm
      (sampleRegistry.sendData sampleComm).2).state.getCurrentNodeLockerId = "H1" ∧
    ((ctor none).recvData sampleComm
      (sampleRegistry.sendData sampleComm).2).state.getCurrentNodeLockerPtr.isSome = true :=
  ⟨(C17_trailer_round_trip sampleRegistry sampleComm none (by decide) (by decide)).2.2.1,
   (C17_trailer_round_trip sampleRegistry sampleComm none (by decide) (by decide)).2.2.2.trans
     (by decide)⟩

/-- C18: when receiving the manifest fails (`receiveIdData` returns a negative result),
`recvSelf` returns that negative result, `recvData` is not run, and the object (entries,
tag counter, current-selection name) is unchanged; one diagnostic is written. -/
theorem C18_recvSelf_failed_manifest (this : NodeLockers) (cp : CommParameters) (f : Frame)
    (hneg : cp.result Call.receiveIdData < 0) :
    (this.recvSelf cp f).retval = cp.result Call.receiveIdData ∧
    (this.recvSelf cp f).retval < 0 ∧
    (this.recvSelf cp f).state = this ∧
    (this.recvSelf cp f).state.node_lockers = this.node_lockers ∧
    (this.recvSelf cp f).state.tag = this.tag ∧
    (this.recvSelf cp f).state.code = this.code ∧
    (this.recvSelf cp f).trace = [Event.cerr] := by
  have h : this.recvSelf cp f
      = { retval := cp.result Call.receiveIdData, state := this, trace := [Event.cerr] } := by
    simp [recvSelf, hneg]
  rw [h]
  exact ⟨rfl, hneg, rfl, rfl, rfl, rfl, rfl⟩

/-- Witness of C18: a carrier whose calls all return -1; the frame of the sample registry
is not taken over by a new registry. -/
theorem C18_recvSelf_failed_manifest_witness :
    ((ctor none).recvSelf { sampleComm with result := fun _ => -1 }
      (sampleRegistry.sendData sampleComm).2).retval = -1 ∧
    ((ctor none).recvSelf { sampleComm with result := fun _ => -1 }
      (sampleRegistry.sendData sampleComm).2).state = ctor none :=
  ⟨(C18_recvSelf_failed_manifest (ctor none) { sampleComm with result := fun _ => -1 }
      (sampleRegistry.sendData sampleComm).2 (by decide)).1,
   (C18_recvSelf_failed_manifest (ctor none) { sampleComm with result := fun _ => -1 }
      (sampleRegistry.sendData sampleComm).2 (by decide)).2.2.1⟩

end NodeLockers
end XC

namespace XC
namespace NodeLockers

/-! Receiving into a registry that already holds lockers -/

theorem recvData_fold_busca_ne (cp : CommParameters) (labelData : List String)
    (objData : List Payload) (k : String) (idx : List Nat) : ∀ acc : Outcome Int,
    (∀ i ∈ idx, labelData.getD i "" ≠ k) →
    (idx.foldl (recvData_step cp labelData objData) acc).state.busca_node_locker k
      = acc.state.busca_node_locker k := by
  induction idx with
  | nil => intro acc _; rfl
  | cons a rest ih =>
    intro acc h
    rw [List.foldl_cons, ih _ (fun i hi => h i (List.mem_cons_of_mem _ hi))]
    exact recvData_step_busca_ne cp labelData objData acc a k
      (Ne.symm (h a (List.mem_cons_self _ _)))

theorem recvData_fold_hydrate (cp : CommParameters) (labelData : List String)
    (objData : List Payload) (k : String) (hk : k ≠ "") (idx : List Nat) :
    ∀ acc : Outcome Int,
    (∃ i ∈ idx, labelData.getD i "" = k) →
    ∃ tmp,
      (acc.state.busca_node_locker k = some tmp ∨
        (acc.state.busca_node_locker k = none ∧ ∃ t, tmp = NodeLocker.new t)) ∧
      (idx.foldl (recvData_step cp labelData objData) acc).state.busca_node_locker k
        = some ((idx.filter (fun i => decide (labelData.getD i "" = k))).foldl
            (fun x i => cp.receiveMovable x (objData.getD i [])) tmp) := by
  induction idx with
  | nil =>
    intro acc h
    obtain ⟨i, hi, _⟩ := h
    simp at hi
  | cons a rest ih =>
    intro acc _
    rw [List.foldl_cons]
    by_cases ha : labelData.getD a "" = k
    · have hne : labelData.getD a "" ≠ "" := by rw [ha]; exact hk
      obtain ⟨tmp, h1, h2, _⟩ := recvData_step_nonempty cp labelData objData acc a hne
      rw [ha] at h1 h2
      have h1b : acc.state.busca_node_locker k = some tmp ∨
          (acc.state.busca_node_locker k = none ∧ ∃ t, tmp = NodeLocker.new t) := by
        rcases h1 with h1 | ⟨h1, h1t⟩
        · exact Or.inl h1
        · exact Or.inr ⟨h1, _, h1t⟩
      refine ⟨tmp, h1b, ?_⟩
      have hfilter : (a :: rest).filter (fun i => decide (labelData.getD i "" = k))
          = a :: rest.filter (fun i => decide (labelData.getD i "" = k)) := by
        rw [List.filter_cons, if_pos (decide_eq_true ha)]
      rw [hfilter, List.foldl_cons]
      by_cases hrest : ∃ i ∈ rest, labelData.getD i "" = k
      · obtain ⟨tmp2, h3, h4⟩ := ih (recvData_step cp labelData objData acc a) hrest
        rw [h2] at h3
        rcases h3 with h3 | ⟨h3, _⟩
        · rw [h4]
          simp only [Option.some.injEq] at h3
          rw [h3]
        · exact Option.noConfusion h3
      · have hnone : ∀ i ∈ rest, labelData.getD i "" ≠ k :=
          fun i hi hc => hrest ⟨i, hi, hc⟩
        rw [recvData_fold_busca_ne cp labelData objData k rest _ hnone, h2]
        have : rest.filter (fun i => decide (labelData.getD i "" = k)) = [] := by
          rw [List.filter_eq_nil_iff]
          intro i hi hc
          exact hnone i hi (of_decide_eq_true hc)
        rw [this]
        rfl
    · have hrest : ∃ i ∈ rest, labelData.getD i "" = k := by
        rename_i hex
        obtain ⟨i, hi, hik⟩ := hex
        rcases List.mem_cons.mp hi with hia | hir
        · exact absurd (hia ▸ hik) ha
        · exact ⟨i, hir, hik⟩
      obtain ⟨tmp2, h3, h4⟩ := ih (recvData_step cp labelData objData acc a) hrest
      rw [recvData_step_busca_ne cp labelData objData acc a k (Ne.symm ha)] at h3
      refine ⟨tmp2, h3, ?_⟩
      have hfilter : (a :: rest).filter (fun i => decide (labelData.getD i "" = k))
          = rest.filter (fun i => decide (labelData.getD i "" = k)) := by
        rw [List.filter_cons, if_neg (fun hc => ha (of_decide_eq_true hc))]
      rw [hfilter]
      exact h4

theorem filter_eq_singleton (l : List Nat) (q : Nat → Bool) (i : Nat) (hnd : l.Nodup)
    (hi : i ∈ l) (hq : q i = true) (huniq : ∀ j ∈ l, q j = true → j = i) :
    l.filter q = [i] := by
  induction l with
  | nil => simp at hi
  | cons a rest ih =>
    have hnd2 := List.nodup_cons.mp hnd
    by_cases ha : a = i
    · subst ha
      have hrest : rest.filter q = [] := by
        rw [List.filter_eq_nil_iff]
        intro j hj hqj
        have := huniq j (List.mem_cons_of_mem _ hj) hqj
        exact hnd2.1 (this ▸ hj)
      simp [List.filter_cons, hq, hrest]
    · have hqa : q a = false := by
        cases hqa : q a with
        | false => rfl
        | true => exact absurd (huniq a (List.mem_cons_self _ _) hqa) ha
      have hir : i ∈ rest := by
        rcases List.mem_cons.mp hi with h | h
        · exact absurd h.symm ha
        · exact h
      simp only [List.filter_cons, hqa]
      exact ih hnd2.2 hir (fun j hj => huniq j (List.mem_cons_of_mem _ hj))

end NodeLockers
end XC

namespace XC
namespace NodeLockers

theorem nodup_of_pairwise_less (l : List String) (h : l.Pairwise less) : l.Nodup := by
  refine List.Pairwise.imp ?_ h
  intro a b hab hc
  exact less_irrefl b (hc ▸ hab)

theorem recvData_state_busca_of_pos (this : NodeLockers) (cp : CommParameters) (f : Frame)
    (hpos : 0 < f.pos1) (k : String) :
    (this.recvData cp f).state.busca_node_locker k =
      ((List.range f.pos1).foldl
        (recvData_step cp (f.labelData.getD []) (f.objData.getD []))
        { retval := cp.result (Call.receive 2) + cp.result (Call.receive 3)
          state := { this with tag := f.pos0 }, trace := [] }).state.busca_node_locker k := by
  rw [recvData_state_busca]
  simp only [gt_iff_lt, hpos, if_true]

/-- C19: find-or-create on receive.  Let the receiver be any registry and the frame have
`n > 0` labels, none of them empty.  After `recvData`: the names are those the receiver
had before together with the labels of the frame; a name that is not a label keeps its
locker untouched; under each label stands the locker that was registered under it before
(or, when there was none, one newly created locker), hydrated from the payloads of the
positions carrying that label, in order (from the payload of its own position when the
label occurs once); the size grows by the number of distinct labels that were not
registered, so no entry is added for a label that was. -/
theorem C19_find_or_create (recv : NodeLockers) (cp : CommParameters) (f : Frame)
    (hord : recv.node_lockers.Ordered) (hpos : 0 < f.pos1)
    (hlab : ∀ i, i < f.pos1 → (f.labelData.getD []).getD i "" ≠ "") :
    (∀ k, k ∈ (recv.recvData cp f).state.node_lockers.keys ↔
      (k ∈ recv.node_lockers.keys ∨ ∃ i, i < f.pos1 ∧ (f.labelData.getD []).getD i "" = k)) ∧
    (∀ k, (∀ i, i < f.pos1 → (f.labelData.getD []).getD i "" ≠ k) →
      (recv.recvData cp f).state.busca_node_locker k = recv.busca_node_locker k) ∧
    (∀ i, i < f.pos1 → ∃ tmp,
      (recv.busca_node_locker ((f.labelData.getD []).getD i "") = some tmp ∨
        (recv.busca_node_locker ((f.labelData.getD []).getD i "") = none ∧
          ∃ t, tmp = NodeLocker.new t)) ∧
      (recv.recvData cp f).state.busca_node_locker ((f.labelData.getD []).getD i "")
        = some (((List.range f.pos1).filter (fun j =>
              decide ((f.labelData.getD []).getD j "" = (f.labelData.getD []).getD i ""))).foldl
            (fun x j => cp.receiveMovable x ((f.objData.getD []).getD j [])) tmp)) ∧
    (∀ i, i < f.pos1 →
      (∀ j, j < f.pos1 →
        (f.labelData.getD []).getD j "" = (f.labelData.getD []).getD i "" → j = i) →
      ∃ tmp,
        (recv.busca_node_locker ((f.labelData.getD []).getD i "") = some tmp ∨
          (recv.busca_node_locker ((f.labelData.getD []).getD i "") = none ∧
            ∃ t, tmp = NodeLocker.new t)) ∧
        (recv.recvData cp f).state.busca_node_locker ((f.labelData.getD []).getD i "")
          = some (cp.receiveMovable tmp ((f.objData.getD []).getD i []))) ∧
    (recv.recvData cp f).state.size = recv.size +
      ((((List.range f.pos1).map (fun i => (f.labelData.getD []).getD i "")).dedup).filter
        (fun l => decide (l ∉ recv.node_lockers.keys))).length ∧
    (recv.recvData cp f).state.node_lockers.Ordered := by
  have hkeep : ∀ k, (∀ i, i < f.pos1 → (f.labelData.getD []).getD i "" ≠ k) →
      (recv.recvData cp f).state.busca_node_locker k = recv.busca_node_locker k := by
    intro k hk
    rw [recvData_state_busca_of_pos recv cp f hpos]
    exact recvData_fold_busca_ne cp (f.labelData.getD []) (f.objData.getD []) k
      (List.range f.pos1)
      { retval := cp.result (Call.receive 2) + cp.result (Call.receive 3)
        state := { recv with tag := f.pos0 }, trace := [] }
      (fun i hi => hk i (List.mem_range.mp hi))
  have hhyd : ∀ i, i < f.pos1 → ∃ tmp,
      (recv.busca_node_locker ((f.labelData.getD []).getD i "") = some tmp ∨
        (recv.busca_node_locker ((f.labelData.getD []).getD i "") = none ∧
          ∃ t, tmp = NodeLocker.new t)) ∧
      (recv.recvData cp f).state.busca_node_locker ((f.labelData.getD []).getD i "")
        = some (((List.range f.pos1).filter (fun j =>
              decide ((f.labelData.getD []).getD j "" = (f.labelData.getD []).getD i ""))).foldl
            (fun x j => cp.receiveMovable x ((f.objData.getD []).getD j [])) tmp) := by
    intro i hi
    rw [recvData_state_busca_of_pos recv cp f hpos]
    exact recvData_fold_hydrate cp (f.labelData.getD []) (f.objData.getD []) _ (hlab i hi)
      (List.range f.pos1)
      { retval := cp.result (Call.receive 2) + cp.result (Call.receive 3)
        state := { recv with tag := f.pos0 }, trace := [] }
      ⟨i, List.mem_range.mpr hi, rfl⟩
  have hkeys : ∀ k, k ∈ (recv.recvData cp f).state.node_lockers.keys ↔
      (k ∈ recv.node_lockers.keys ∨ ∃ i, i < f.pos1 ∧ (f.labelData.getD []).getD i "" = k) := by
    intro k
    by_cases hk : ∃ i, i < f.pos1 ∧ (f.labelData.getD []).getD i "" = k
    · obtain ⟨i, hi, hik⟩ := hk
      obtain ⟨tmp, _, h2⟩ := hhyd i hi
      rw [hik] at h2
      constructor
      · intro _; exact Or.inr ⟨i, hi, hik⟩
      · intro _
        rw [← map_node_lockers.find_isSome_iff]
        simp only [busca_node_locker] at h2
        rw [h2]
        rfl
    · have hno : ∀ i, i < f.pos1 → (f.labelData.getD []).getD i "" ≠ k :=
        fun i hi hc => hk ⟨i, hi, hc⟩
      have := hkeep k hno
      simp only [busca_node_locker] at this
      rw [← map_node_lockers.find_isSome_iff, ← map_node_lockers.find_isSome_iff, this]
      constructor
      · intro h; exact Or.inl h
      · rintro (h | h)
        · exact h
        · exact absurd h hk
  have hordered := recvData_ordered recv cp f hord
  refine ⟨hkeys, hkeep, hhyd, ?_, ?_, hordered⟩
  · intro i hi huniq
    obtain ⟨tmp, h1, h2⟩ := hhyd i hi
    refine ⟨tmp, h1, ?_⟩
    rw [h2, filter_eq_singleton (List.range f.pos1) _ i (List.nodup_range _)
      (List.mem_range.mpr hi) (decide_eq_true rfl)
      (fun j hj hq => huniq j (List.mem_range.mp hj) (of_decide_eq_true hq))]
    rfl
  · have hperm : (recv.recvData cp f).state.node_lockers.keys.Perm
        (recv.node_lockers.keys ++
          ((((List.range f.pos1).map (fun i => (f.labelData.getD []).getD i "")).dedup).filter
            (fun l => decide (l ∉ recv.node_lockers.keys)))) := by
      rw [List.perm_ext_iff_of_nodup (nodup_of_pairwise_less _ hordered)]
      · intro k
        rw [hkeys k, List.mem_append, List.mem_filter, List.mem_dedup, List.mem_map]
        constructor
        · rintro (h | ⟨i, hi, hik⟩)
          · exact Or.inl h
          · by_cases hin : k ∈ recv.node_lockers.keys
            · exact Or.inl hin
            · exact Or.inr ⟨⟨i, List.mem_range.mpr hi, hik⟩, decide_eq_true hin⟩
        · rintro (h | ⟨⟨i, hi, hik⟩, _⟩)
          · exact Or.inl h
          · exact Or.inr ⟨i, List.mem_range.mp hi, hik⟩
      · refine List.Nodup.append (nodup_of_pairwise_less _ hord)
          (List.Nodup.filter _ (List.nodup_dedup _)) ?_
        intro k hk1 hk2
        exact (of_decide_eq_true (List.mem_filter.mp hk2).2) hk1
    have hlen := hperm.length_eq
    simp only [List.length_append, map_node_lockers.keys, List.length_map] at hlen
    simpa [size, map_node_lockers.keys] using hlen

/-- Witness of C19: the sample registry ("H1", "H2") receives a frame labelled "H2", "H3":
"H2" is hydrated in place, "H3" is created, "H1" is kept. -/
theorem C19_find_or_create_witness :
    (sampleRegistry.recvData sampleComm
      { pos0 := 7, pos1 := 2, labelData := some ["H2", "H3"]
        objData := some [[9, 9, 9], [8, 8, 8]], code := "H3" }).state.node_lockers.keys
      = ["H1", "H2", "H3"] ∧
    (sampleRegistry.recvData sampleComm
      { pos0 := 7, pos1 := 2, labelData := some ["H2", "H3"]
        objData := some [[9, 9, 9], [8, 8, 8]], code := "H3" }).state.size = 3 ∧
    (sampleRegistry.recvData sampleComm
      { pos0 := 7, pos1 := 2, labelData := some ["H2", "H3"]
        objData := some [[9, 9, 9], [8, 8, 8]], code := "H3" }).state.busca_node_locker "H1"
      = sampleRegistry.busca_node_locker "H1" :=
  ⟨by decide,
   (C19_find_or_create sampleRegistry sampleComm
      { pos0 := 7, pos1 := 2, labelData := some ["H2", "H3"]
        objData := some [[9, 9, 9], [8, 8, 8]], code := "H3" }
      (by decide) (by decide) (by decide)).2.2.2.2.1.trans (by decide),
   (C19_find_or_create sampleRegistry sampleComm
      { pos0 := 7, pos1 := 2, labelData := some ["H2", "H3"]
        objData := some [[9, 9, 9], [8, 8, 8]], code := "H3" }
      (by decide) (by decide) (by decide)).2.1 "H1" (by decide)⟩

end NodeLockers
end XC

namespace XC

/-! The identifiers of the points of a quadrilateral cell -/

/-- C20 (what the code does): for `j` below the number of rows, `k` below the number of
columns and the four cells occupied, `getIdPuntosQuad(puntos,j,k)` returns the four tags
in the order (j,k), (j,k+1), (j+1,k+1), (j+1,k): element 1 is the point at (j,k+1) and
element 3 is the point at (j+1,k), the reverse of the order (j,k), (j+1,k), (j+1,k+1),
(j,k+1) announced in the comment of the function. -/
theorem C20_getIdPuntosQuad_order (puntos : const_ref_capa_i_cte) (j k : Nat)
    (p1 p2 p3 p4 : Pnt)
    (hj : j < puntos.getNumFilas) (hk : k < puntos.getNumCols)
    (h1 : puntos.elem j k = some p1) (h2 : puntos.elem j (k + 1) = some p2)
    (h3 : puntos.elem (j + 1) (k + 1) = some p3) (h4 : puntos.elem (j + 1) k = some p4) :
    getIdPuntosQuad puntos j k = [p1.GetTag, p2.GetTag, p3.GetTag, p4.GetTag] ∧
    (getIdPuntosQuad puntos j k).length = 4 ∧
    (getIdPuntosQuad puntos j k)[1]? = some p2.GetTag ∧
    (getIdPuntosQuad puntos j k)[3]? = some p4.GetTag := by
  have h : getIdPuntosQuad puntos j k = [p1.GetTag, p2.GetTag, p3.GetTag, p4.GetTag] := by
    unfold getIdPuntosQuad
    simp only [ge_iff_le, Nat.not_le.mpr hj, Nat.not_le.mpr hk, if_false, h1, h2, h3, h4,
      setIdPunto]
    rfl
  rw [h]
  exact ⟨rfl, rfl, rfl, rfl⟩

/-- Witness of C20: the sample layer at (1,1).  The points at (1,1), (2,1), (2,2), (1,2)
have tags 11, 21, 22, 12; the function returns 11, 12, 22, 21. -/
theorem C20_getIdPuntosQuad_order_witness :
    getIdPuntosQuad sampleCapa 1 1 = [11, 12, 22, 21] ∧
    (getIdPuntosQuad sampleCapa 1 1)[1]? ≠ (sampleCapa.elem 2 1).map Pnt.GetTag ∧
    (getIdPuntosQuad sampleCapa 1 1)[3]? ≠ (sampleCapa.elem 1 2).map Pnt.GetTag :=
  ⟨(C20_getIdPuntosQuad_order sampleCapa 1 1 ⟨11⟩ ⟨12⟩ ⟨22⟩ ⟨21⟩ (by decide) (by decide)
      (by decide) (by decide) (by decide) (by decide)).1,
   by decide, by decide⟩

end XC

namespace XC
namespace TritrizPtrPnt

/-! Gathering points by a grid of indices -/

theorem foldl_nested {α β γ : Type} (f : α → γ → α) (g : β → List γ) (l : List β) :
    ∀ a : α, l.foldl (fun acc x => (g x).foldl f acc) a = (l.flatMap g).foldl f a := by
  induction l with
  | nil => intro a; rfl
  | cons x rest ih =>
    intro a
    rw [List.foldl_cons, ih, List.flatMap_cons, List.foldl_append]

theorem getPuntos_eq_flat (this : TritrizPtrPnt) (indices : TritrizIndices) :
    this.getPuntos indices =
      ((List.range' 1 indices.GetCapas).flatMap (fun i =>
        (List.range' 1 indices.getNumFilas).flatMap (fun j =>
          (List.range' 1 indices.GetCapas).map (fun k => (i, j, k))))).foldl
        (fun acc c => getPuntos_body this indices acc c.1 c.2.1 c.2.2)
        { retval := ctor indices.GetCapas indices.getNumFilas indices.getNumCols
          reads := [] } := by
  unfold getPuntos
  dsimp only
  rw [← foldl_nested]
  congr 1
  funext acc i
  rw [← foldl_nested]
  congr 1
  funext acc2 j
  rw [List.foldl_map]

theorem getPuntos_body_flat (this : TritrizPtrPnt) (indices : TritrizIndices)
    (cells : List (Nat × Nat × Nat)) : ∀ acc : Gathered,
    (cells.foldl (fun acc c => getPuntos_body this indices acc c.1 c.2.1 c.2.2) acc).reads
      = acc.reads ++ cells ∧
    (cells.foldl (fun acc c => getPuntos_body this indices acc c.1 c.2.1
      c.2.2) acc).retval.GetCapas = acc.retval.GetCapas ∧
    (cells.foldl (fun acc c => getPuntos_body this indices acc c.1 c.2.1
      c.2.2) acc).retval.getNumFilas = acc.retval.getNumFilas ∧
    (cells.foldl (fun acc c => getPuntos_body this indices acc c.1 c.2.1
      c.2.2) acc).retval.getNumCols = acc.retval.getNumCols ∧
    ∀ a b c,
      ((a, b, c) ∈ cells ∧ 2 < (indices.elem a b c).length →
        (cells.foldl (fun acc c => getPuntos_body this indices acc c.1 c.2.1
          c.2.2) acc).retval.elem a b c = this.getPunto (indices.elem a b c)) ∧
      (¬ ((a, b, c) ∈ cells ∧ 2 < (indices.elem a b c).length) →
        (cells.foldl (fun acc c => getPuntos_body this indices acc c.1 c.2.1
          c.2.2) acc).retval.elem a b c = acc.retval.elem a b c) := by
  induction cells with
  | nil =>
    intro acc
    refine ⟨by simp, rfl, rfl, rfl, ?_⟩
    intro a b c
    refine ⟨?_, fun _ => rfl⟩
    rintro ⟨h, _⟩
    simp at h
  | cons cell rest ih =>
    intro acc
    obtain ⟨i, j, k⟩ := cell
    simp only [List.foldl_cons]
    obtain ⟨h1, h2, h3, h4, h5⟩ := ih (getPuntos_body this indices acc i j k)
    have hbody_reads : (getPuntos_body this indices acc i j k).reads
        = acc.reads ++ [(i, j, k)] := by
      unfold getPuntos_body
      dsimp only
      split <;> rfl
    have hbody_dims : (getPuntos_body this indices acc i j k).retval.GetCapas
          = acc.retval.GetCapas ∧
        (getPuntos_body this indices acc i j k).retval.getNumFilas
          = acc.retval.getNumFilas ∧
        (getPuntos_body this indices acc i j k).retval.getNumCols
          = acc.retval.getNumCols := by
      unfold getPuntos_body
      dsimp only
      split <;> exact ⟨rfl, rfl, rfl⟩
    have hbody_elem : ∀ a b c,
        (getPuntos_body this indices acc i j k).retval.elem a b c
          = if (a = i ∧ b = j ∧ c = k) ∧ 2 < (indices.elem i j k).length
            then this.getPunto (indices.elem i j k) else acc.retval.elem a b c := by
      intro a b c
      unfold getPuntos_body
      dsimp only
      by_cases hlen : (indices.elem i j k).length > 2
      · simp only [hlen, if_true, assign, gt_iff_lt.mp hlen, and_true]
      · have hlen2 : ¬ 2 < (indices.elem i j k).length := hlen
        simp only [hlen, if_false, hlen2, and_false]
    refine ⟨?_, h2.trans hbody_dims.1, h3.trans hbody_dims.2.1, h4.trans hbody_dims.2.2, ?_⟩
    · rw [h1, hbody_reads, List.append_assoc]
      rfl
    · intro a b c
      obtain ⟨h5a, h5b⟩ := h5 a b c
      constructor
      · rintro ⟨hmem, hlen⟩
        by_cases hrest : (a, b, c) ∈ rest
        · exact h5a ⟨hrest, hlen⟩
        · rw [h5b (fun hc => hrest hc.1), hbody_elem]
          rcases List.mem_cons.mp hmem with heq | hmem2
          · simp only [Prod.mk.injEq] at heq
            obtain ⟨ha, hb, hc⟩ := heq
            subst ha; subst hb; subst hc
            simp [hlen]
          · exact absurd hmem2 hrest
      · intro hnot
        have hnot_rest : ¬ ((a, b, c) ∈ rest ∧ 2 < (indices.elem a b c).length) :=
          fun hc => hnot ⟨List.mem_cons_of_mem _ hc.1, hc.2⟩
        rw [h5b hnot_rest, hbody_elem]
        have hne : ¬ ((a = i ∧ b = j ∧ c = k) ∧ 2 < (indices.elem i j k).length) := by
          rintro ⟨⟨ha, hb, hc⟩, hlen⟩
          subst ha; subst hb; subst hc
          exact hnot ⟨List.mem_cons_self _ _, hlen⟩
        simp only [hne, if_false]

theorem mem_cells (nc nf nk : Nat) (a b c : Nat) :
    (a, b, c) ∈ (List.range' 1 nc).flatMap (fun i =>
        (List.range' 1 nf).flatMap (fun j => (List.range' 1 nk).map (fun k => (i, j, k)))) ↔
      (1 ≤ a ∧ a ≤ nc) ∧ (1 ≤ b ∧ b ≤ nf) ∧ (1 ≤ c ∧ c ≤ nk) := by
  simp only [List.mem_flatMap, List.mem_map, List.mem_range'_1, Prod.mk.injEq]
  constructor
  · rintro ⟨i, hi, j, hj, k, hk, rfl, rfl, rfl⟩
    exact ⟨⟨hi.1, by omega⟩, ⟨hj.1, by omega⟩, ⟨hk.1, by omega⟩⟩
  · rintro ⟨ha, hb, hc⟩
    exact ⟨a, ⟨ha.1, by omega⟩, b, ⟨hb.1, by omega⟩, c, ⟨hc.1, by omega⟩, rfl, rfl, rfl⟩

end TritrizPtrPnt
end XC

namespace XC
namespace TritrizPtrPnt

/-- C21 (what the code does): for a grid of indices whose cells hold at least three
indices, `getPuntos(indices)` returns a grid of the dimensions of `indices`, but its
innermost loop runs `k` from 1 to the number of layers, not of columns.  The cell
`(i,j,k)` of the result is `getPunto(indices(i,j,k))` for `k` up to the number of layers
and is left null for every `k` beyond it; the cells of `indices` read are exactly those
with `k` from 1 to the number of layers, which lie outside the grid when there are more
layers than columns. -/
theorem C21_getPuntos_inner_bound (this : TritrizPtrPnt) (indices : TritrizIndices)
    (hsize : ∀ i j k, 2 < (indices.elem i j k).length) :
    ((this.getPuntos indices).retval.GetCapas = indices.GetCapas ∧
      (this.getPuntos indices).retval.getNumFilas = indices.getNumFilas ∧
      (this.getPuntos indices).retval.getNumCols = indices.getNumCols) ∧
    (∀ i j k, 1 ≤ i ∧ i ≤ indices.GetCapas → 1 ≤ j ∧ j ≤ indices.getNumFilas →
      1 ≤ k ∧ k ≤ indices.GetCapas →
      (this.getPuntos indices).retval.elem i j k = this.getPunto (indices.elem i j k)) ∧
    (∀ i j k, indices.GetCapas < k → (this.getPuntos indices).retval.elem i j k = none) ∧
    (∀ i j k, (i, j, k) ∈ (this.getPuntos indices).reads ↔
      (1 ≤ i ∧ i ≤ indices.GetCapas) ∧ (1 ≤ j ∧ j ≤ indices.getNumFilas) ∧
        (1 ≤ k ∧ k ≤ indices.GetCapas)) := by
  rw [getPuntos_eq_flat]
  obtain ⟨h1, h2, h3, h4, h5⟩ := getPuntos_body_flat this indices
    ((List.range' 1 indices.GetCapas).flatMap (fun i =>
      (List.range' 1 indices.getNumFilas).flatMap (fun j =>
        (List.range' 1 indices.GetCapas).map (fun k => (i, j, k)))))
    { retval := ctor indices.GetCapas indices.getNumFilas indices.getNumCols, reads := [] }
  refine ⟨⟨h2, h3, h4⟩, ?_, ?_, ?_⟩
  · intro i j k hi hj hk
    exact (h5 i j k).1 ⟨(mem_cells _ _ _ i j k).mpr ⟨hi, hj, hk⟩, hsize i j k⟩
  · intro i j k hk
    rw [(h5 i j k).2 ?_]
    · rfl
    · rintro ⟨hmem, _⟩
      have := ((mem_cells _ _ _ i j k).mp hmem).2.2.2
      omega
  · intro i j k
    rw [h1, List.nil_append]
    exact mem_cells _ _ _ i j k

/-- Witness of C21: with one layer, one row and two columns the cell (1,1,2) of the
result is null although `getPunto(indices(1,1,2))` is the point of tag 2, and
`indices(1,1,2)` is never read; with two layers, one row and one column the cell
(1,1,2) of `indices`, beyond its single column, is read. -/
theorem C21_getPuntos_inner_bound_witness :
    (samplePuntos.getPuntos sampleIndices).retval.elem 1 1 2 = none ∧
    samplePuntos.getPunto (sampleIndices.elem 1 1 2) = some ⟨2⟩ ∧
    (1, 1, 2) ∉ (samplePuntos.getPuntos sampleIndices).reads ∧
    (1, 1, 2) ∈ (samplePuntos.getPuntos sampleIndicesDeep).reads :=
  ⟨(C21_getPuntos_inner_bound samplePuntos sampleIndices
      (fun _ _ _ => by simp [sampleIndices])).2.2.1 1 1 2 (by decide),
   by decide, by decide,
   ((C21_getPuntos_inner_bound samplePuntos sampleIndicesDeep
      (fun _ _ _ => by simp [sampleIndicesDeep])).2.2.2 1 1 2).mpr (by decide)⟩

end TritrizPtrPnt
end XC

namespace XC
namespace NodeLockers

/-! The states of a registry -/

theorem nuevoNodeLocker_busca_ne (this : NodeLockers) (nmb k : String) (hk : k ≠ nmb) :
    (this.nuevoNodeLocker nmb).state.busca_node_locker k = this.busca_node_locker k := by
  by_cases hne : nmb = ""
  · subst hne
    rw [nuevoNodeLocker_empty]
  · cases hb : this.busca_node_locker nmb with
    | some p => rw [nuevoNodeLocker_of_some this nmb p hne hb]
    | none =>
      rw [nuevoNodeLocker_of_none this nmb hne hb]
      exact map_node_lockers.find_assign_ne _ _ _ k hk

theorem nuevoNodeLocker_busca_empty (this : NodeLockers) (nmb : String) :
    (this.nuevoNodeLocker nmb).state.busca_node_locker "" = this.busca_node_locker "" := by
  by_cases hne : nmb = ""
  · subst hne
    rw [nuevoNodeLocker_empty]
  · exact nuevoNodeLocker_busca_ne this nmb "" (Ne.symm hne)

theorem nuevoNodeLocker_ordered (this : NodeLockers) (nmb : String)
    (ho : this.node_lockers.Ordered) :
    (this.nuevoNodeLocker nmb).state.node_lockers.Ordered := by
  by_cases hne : nmb = ""
  · subst hne
    rw [nuevoNodeLocker_empty]
    exact ho
  · cases hb : this.busca_node_locker nmb with
    | some p => rw [nuevoNodeLocker_of_some this nmb p hne hb]; exact ho
    | none =>
      rw [nuevoNodeLocker_of_none this nmb hne hb]
      exact map_node_lockers.ordered_assign _ _ _ ho

theorem nuevoNodeLocker_isSome (this : NodeLockers) (nmb : String) (hne : nmb ≠ "") :
    (this.nuevoNodeLocker nmb).retval.isSome = true := by
  cases hb : this.busca_node_locker nmb with
  | some p => rw [nuevoNodeLocker_of_some this nmb p hne hb]; rfl
  | none => rw [nuevoNodeLocker_of_none this nmb hne hb]; rfl

theorem borraNodeLocker_busca_empty (this : NodeLockers) (nmb : String)
    (h : this.busca_node_locker "" = none) :
    (this.borraNodeLocker nmb).state.busca_node_locker "" = none := by
  cases hb : this.busca_node_locker nmb with
  | none => rw [borraNodeLocker_of_none this nmb hb]; exact h
  | some p =>
    rw [borraNodeLocker_of_some this nmb p hb]
    have hne : "" ≠ nmb := by
      intro hc
      rw [← hc, h] at hb
      exact Option.noConfusion hb
    exact (map_node_lockers.find_erase_ne _ _ _ hne).trans h

theorem borraNodeLocker_ordered (this : NodeLockers) (nmb : String)
    (ho : this.node_lockers.Ordered) :
    (this.borraNodeLocker nmb).state.node_lockers.Ordered := by
  cases hb : this.busca_node_locker nmb with
  | none => rw [borraNodeLocker_of_none this nmb hb]; exact ho
  | some p =>
    rw [borraNodeLocker_of_some this nmb p hb]
    exact map_node_lockers.ordered_erase _ _ ho

theorem clearAll_node_lockers (this : NodeLockers) (o : Outcome Unit)
    (h : this.clearAll = some o) : o.state.node_lockers = [] := by
  unfold clearAll at h
  cases hr : this.removeAllFromDomain with
  | none => rw [hr] at h; simp at h
  | some e1 =>
    rw [hr] at h
    simp only [Option.some.injEq] at h
    rw [← h]

theorem clearAll_code (this : NodeLockers) (o : Outcome Unit)
    (h : this.clearAll = some o) : o.state.code = this.code := by
  unfold clearAll at h
  cases hr : this.removeAllFromDomain with
  | none => rw [hr] at h; simp at h
  | some e1 =>
    rw [hr] at h
    simp only [Option.some.injEq] at h
    rw [← h]

theorem recvData_step_busca_empty (cp : CommParameters) (labelData : List String)
    (objData : List Payload) (acc : Outcome Int) (i : Nat) :
    (recvData_step cp labelData objData acc i).state.busca_node_locker ""
      = acc.state.busca_node_locker "" := by
  by_cases h : labelData.getD i "" = ""
  · rw [recvData_step_empty cp labelData objData acc i h]
  · exact recvData_step_busca_ne cp labelData objData acc i "" (Ne.symm h)

theorem recvData_fold_busca_empty (cp : CommParameters) (labelData : List String)
    (objData : List Payload) (idx : List Nat) : ∀ acc : Outcome Int,
    (idx.foldl (recvData_step cp labelData objData) acc).state.busca_node_locker ""
      = acc.state.busca_node_locker "" := by
  induction idx with
  | nil => intro acc; rfl
  | cons a rest ih =>
    intro acc
    rw [List.foldl_cons, ih, recvData_step_busca_empty]

theorem recvData_busca_empty (this : NodeLockers) (cp : CommParameters) (f : Frame) :
    (this.recvData cp f).state.busca_node_locker "" = this.busca_node_locker "" := by
  rw [recvData_state_busca]
  by_cases h : f.pos1 > 0
  · simp only [h, if_true]
    exact recvData_fold_busca_empty cp (f.labelData.getD []) (f.objData.getD [])
      (List.range f.pos1)
      { retval := cp.result (Call.receive 2) + cp.result (Call.receive 3)
        state := { this with tag := f.pos0 }, trace := [] }
  · simp only [h, if_false]

theorem reachable_busca_empty (this : NodeLockers) (hr : Reachable this) :
    this.busca_node_locker "" = none := by
  induction hr with
  | ctor owr => rfl
  | nuevoNodeLocker s nmb _ ih => rw [nuevoNodeLocker_busca_empty]; exact ih
  | borraNodeLocker s nmb _ ih => exact borraNodeLocker_busca_empty s nmb ih
  | clearAll s o _ hc _ =>
    simp only [busca_node_locker, clearAll_node_lockers s o hc]
    rfl
  | recvData s cp f _ ih => rw [recvData_busca_empty]; exact ih

theorem reachable_ordered (this : NodeLockers) (hr : Reachable this) :
    this.node_lockers.Ordered := by
  induction hr with
  | ctor owr => exact map_node_lockers.ordered_nil
  | nuevoNodeLocker s nmb _ ih => exact nuevoNodeLocker_ordered s nmb ih
  | borraNodeLocker s nmb _ ih => exact borraNodeLocker_ordered s nmb ih
  | clearAll s o _ hc _ =>
    rw [clearAll_node_lockers s o hc]
    exact map_node_lockers.ordered_nil
  | recvData s cp f _ ih => exact recvData_ordered s cp f ih

/-- C22: in every state reached from a newly constructed registry by `nuevoNodeLocker`,
`borraNodeLocker`, `clearAll` and `recvData` calls no locker is registered under the
empty name.  Hence every label that `sendData` writes for such a registry is non-empty,
and `nuevoNodeLocker` on any receiving registry returns a locker for it. -/
theorem C22_no_empty_key (this : NodeLockers) (hr : Reachable this) :
    this.busca_node_locker "" = none ∧
    "" ∉ this.node_lockers.keys ∧
    (∀ (cp : CommParameters) (labels : List String),
      (this.sendData cp).2.labelData = some labels →
      ∀ l ∈ labels, l ≠ "" ∧
        ∀ recv : NodeLockers, (recv.nuevoNodeLocker l).retval.isSome = true) := by
  have h1 := reachable_busca_empty this hr
  have h2 : "" ∉ this.node_lockers.keys := (map_node_lockers.find_eq_none_iff _ "").mp h1
  refine ⟨h1, h2, ?_⟩
  intro cp labels hl l hmem
  have hlabels : labels = this.node_lockers.keys := by
    by_cases hz : this.size = 0
    · rw [sendData_frame_of_zero this cp hz] at hl
      exact Option.noConfusion hl
    · rw [sendData_frame_of_pos this cp (Nat.pos_of_ne_zero hz)] at hl
      simp only [Option.some.injEq] at hl
      exact hl.symm
  have hne : l ≠ "" := by
    intro hc
    rw [hlabels, hc] at hmem
    exact h2 hmem
  exact ⟨hne, fun recv => nuevoNodeLocker_isSome recv l hne⟩

/-- Witness of C22: the state after receiving a frame whose first label is empty and
then creating "H2". -/
theorem C22_no_empty_key_witness :
    "" ∉ (((ctor none).recvData sampleComm
        { pos0 := 0, pos1 := 2, labelData := some ["", "H1"]
          objData := some [[1, 2, 3], [5, 0, 2]], code := "H1" }).state.nuevoNodeLocker
      "H2").state.node_lockers.keys :=
  (C22_no_empty_key _
    (Reachable.nuevoNodeLocker _ "H2"
      (Reachable.recvData _ sampleComm
        { pos0 := 0, pos1 := 2, labelData := some ["", "H1"]
          objData := some [[1, 2, 3], [5, 0, 2]], code := "H1" }
        (Reachable.ctor none)))).2.1

end NodeLockers
end XC

namespace XC
namespace NodeLockers

/-! The tag counter across a receive -/

theorem length_assign_of_find_some (m : map_node_lockers) (k : String) (v p : NodeLocker)
    (ho : m.Ordered) (h : m.find k = some p) : (m.assign k v).length = m.length := by
  have := congrArg List.length (map_node_lockers.keys_assign_of_find_some m k v p ho h)
  simpa [map_node_lockers.keys] using this

theorem recvData_step_tag_size (cp : CommParameters) (labelData : List String)
    (objData : List Payload) (acc : Outcome Int) (i : Nat)
    (ho : acc.state.node_lockers.Ordered) :
    ((recvData_step cp labelData objData acc i).state.tag = acc.state.tag ∧
      (recvData_step cp labelData objData acc i).state.size = acc.state.size) ∨
    ((recvData_step cp labelData objData acc i).state.tag = int_wrap (acc.state.tag + 1) ∧
      (recvData_step cp labelData objData acc i).state.size = acc.state.size + 1) := by
  by_cases h : labelData.getD i "" = ""
  · rw [recvData_step_empty cp labelData objData acc i h]
    exact Or.inl ⟨rfl, rfl⟩
  · unfold recvData_step
    generalize labelData.getD i "" = label at h
    generalize objData.getD i [] = payload
    cases hb : acc.state.busca_node_locker label with
    | some p =>
      left
      simp only [nuevoNodeLocker_of_some _ _ p h hb, size]
      exact ⟨trivial, length_assign_of_find_some _ _ _ p ho hb⟩
    | none =>
      right
      simp only [nuevoNodeLocker_of_none _ _ h hb, size]
      refine ⟨trivial, ?_⟩
      rw [length_assign_of_find_some _ _ _ (NodeLocker.new acc.state.tag)
        (map_node_lockers.ordered_assign _ _ _ ho)
        (map_node_lockers.find_assign_self _ _ _)]
      exact map_node_lockers.length_assign_of_find_none _ _ _ hb

theorem recvData_fold_tag_size (cp : CommParameters) (labelData : List String)
    (objData : List Payload) (idx : List Nat) : ∀ acc : Outcome Int,
    acc.state.node_lockers.Ordered →
    ∃ created : Nat,
      (idx.foldl (recvData_step cp labelData objData) acc).state.size
        = acc.state.size + created ∧
      (created = 0 →
        (idx.foldl (recvData_step cp labelData objData) acc).state.tag = acc.state.tag) ∧
      (0 < created →
        (idx.foldl (recvData_step cp labelData objData) acc).state.tag
          = int_wrap (acc.state.tag + (created : Int))) := by
  induction idx with
  | nil =>
    intro acc _
    exact ⟨0, by simp, fun _ => rfl, fun h => absurd h (Nat.lt_irrefl 0)⟩
  | cons a rest ih =>
    intro acc ho
    obtain ⟨n, h1, h2, h3⟩ := ih (recvData_step cp labelData objData acc a)
      (recvData_step_ordered cp labelData objData acc a ho)
    rw [List.foldl_cons]
    rcases recvData_step_tag_size cp labelData objData acc a ho with ⟨ht, hs⟩ | ⟨ht, hs⟩
    · refine ⟨n, by rw [h1, hs], ?_, ?_⟩
      · intro hn; rw [h2 hn, ht]
      · intro hn; rw [h3 hn, ht]
    · refine ⟨n + 1, by rw [h1, hs]; omega, ?_, ?_⟩
      · intro hn
        exact absurd hn (Nat.succ_ne_zero n)
      · intro _
        by_cases hn : n = 0
        · subst hn
          rw [h2 rfl, ht]
          simp
        · rw [h3 (Nat.pos_of_ne_zero hn), ht]
          have hstep : ∀ (x : Int) (m : Nat), 0 < m →
              int_wrap (int_wrap (x + 1) + (m : Int)) = int_wrap (x + ((m + 1 : Nat) : Int)) := by
            intro x m _
            unfold int_wrap
            push_cast
            omega
          exact hstep _ n (Nat.pos_of_ne_zero hn)

theorem recvData_tag_size (this : NodeLockers) (cp : CommParameters) (f : Frame)
    (ho : this.node_lockers.Ordered) :
    ∃ created : Nat,
      (this.recvData cp f).state.size = this.size + created ∧
      (created = 0 → (this.recvData cp f).state.tag = f.pos0) ∧
      (0 < created → (this.recvData cp f).state.tag = int_wrap (f.pos0 + (created : Int))) := by
  by_cases h : f.pos1 > 0
  · obtain ⟨n, h1, h2, h3⟩ := recvData_fold_tag_size cp (f.labelData.getD [])
      (f.objData.getD []) (List.range f.pos1)
      { retval := cp.result (Call.receive 2) + cp.result (Call.receive 3)
        state := { this with tag := f.pos0 }, trace := [] } ho
    refine ⟨n, ?_, ?_, ?_⟩
    · simp only [recvData, h, if_true, size] at h1 ⊢
      exact h1
    · intro hn
      have := h2 hn
      simp only [recvData, h, if_true] at this ⊢
      exact this
    · intro hn
      have := h3 hn
      simp only [recvData, h, if_true] at this ⊢
      exact this
  · refine ⟨0, ?_, ?_, ?_⟩
    · simp [recvData, h, size]
    · intro _
      simp [recvData, h]
    · intro hc
      exact absurd hc (Nat.lt_irrefl 0)

/-- C23 (counterexample): a new registry receives a frame holding 2147483647 at position
0 and the single label "H1".  One locker is created, and the counter afterwards is
-2147483648, not 2147483647 + 1. -/
theorem C23_counterexample :
    ((ctor none).recvData sampleComm
      { pos0 := 2147483647, pos1 := 1, labelData := some ["H1"]
        objData := some [[5, 0, 2]], code := "H1" }).state.size = (ctor none).size + 1 ∧
    ((ctor none).recvData sampleComm
      { pos0 := 2147483647, pos1 := 1, labelData := some ["H1"]
        objData := some [[5, 0, 2]], code := "H1" }).state.tag = -2147483648 ∧
    ¬ (((ctor none).recvData sampleComm
      { pos0 := 2147483647, pos1 := 1, labelData := some ["H1"]
        objData := some [[5, 0, 2]], code := "H1" }).state.tag = 2147483647 + 1) := by
  decide

/-- C23 (amended): `recvData` overwrites the tag counter.  After `recvData` on a frame
whose position 0 holds `m` the counter is `m` plus the number of lockers the call created
(the growth of the registry) reduced to the range of `int`, so it is exactly that sum
whenever the sum does not exceed `INT_MAX`; this holds whatever the counter was before:
the state after the call does not depend on the previous counter.  There is a reachable
registry with counter above `m + n` whose counter decreases in the call, after which
`nuevoNodeLocker` gives a new locker the tag of a locker that is still registered. -/
theorem C23_recvData_overwrites_tag (recv : NodeLockers) (cp : CommParameters) (f : Frame)
    (hord : recv.node_lockers.Ordered) :
    (∃ created : Nat,
      (recv.recvData cp f).state.size = recv.size + created ∧
      (created = 0 → (recv.recvData cp f).state.tag = f.pos0) ∧
      (0 < created → (recv.recvData cp f).state.tag = int_wrap (f.pos0 + (created : Int))) ∧
      (INT_MIN ≤ f.pos0 → f.pos0 + (created : Int) ≤ INT_MAX →
        (recv.recvData cp f).state.tag = f.pos0 + (created : Int))) ∧
    (∀ c : Int, ({ recv with tag := c }.recvData cp f).state
      = (recv.recvData cp f).state) ∧
    (∃ (r : NodeLockers) (g : Frame) (k nmb : String) (p q : NodeLocker),
      Reachable r ∧
      g.pos0 + (g.pos1 : Int) < r.tag ∧
      (r.recvData sampleComm g).state.tag < r.tag ∧
      r.busca_node_locker k = some p ∧
      (r.recvData sampleComm g).state.busca_node_locker k = some p ∧
      (r.recvData sampleComm g).state.busca_node_locker nmb = none ∧
      ((r.recvData sampleComm g).state.nuevoNodeLocker nmb).retval = some q ∧
      q.getTag = p.getTag) := by
  refine ⟨?_, fun c => rfl, ?_⟩
  · obtain ⟨n, h1, h2, h3⟩ := recvData_tag_size recv cp f hord
    refine ⟨n, h1, h2, h3, ?_⟩
    intro hmin hmax
    by_cases hn : n = 0
    · rw [h2 hn, hn]
      simp
    · rw [h3 (Nat.pos_of_ne_zero hn)]
      exact int_wrap_of_range _ (by omega) hmax
  refine ⟨(((ctor none).nuevoNodeLocker "A").state.nuevoNodeLocker "B").state,
    { pos0 := 0, pos1 := 0, labelData := none, objData := none, code := "nil" },
    "A", "C", NodeLocker.new 0, NodeLocker.new 0, ?_, ?_, ?_, ?_, ?_, ?_, ?_, ?_⟩
  · exact Reachable.nuevoNodeLocker _ "B" (Reachable.nuevoNodeLocker _ "A" (Reachable.ctor none))
  all_goals decide

/-- Witness of C23 (amended): the sample registry (counter 2) receives a frame with
position 0 equal to 7 that creates "H3": the counter becomes 8. -/
theorem C23_recvData_overwrites_tag_witness :
    (sampleRegistry.recvData sampleComm
      { pos0 := 7, pos1 := 2, labelData := some ["H2", "H3"]
        objData := some [[9, 9, 9], [8, 8, 8]], code := "H3" }).state.tag = 8 ∧
    ∃ created : Nat,
      (sampleRegistry.recvData sampleComm
        { pos0 := 7, pos1 := 2, labelData := some ["H2", "H3"]
          objData := some [[9, 9, 9], [8, 8, 8]], code := "H3" }).state.size
        = sampleRegistry.size + created ∧
      (INT_MIN ≤ (7 : Int) → (7 : Int) + (created : Int) ≤ INT_MAX →
        (sampleRegistry.recvData sampleComm
          { pos0 := 7, pos1 := 2, labelData := some ["H2", "H3"]
            objData := some [[9, 9, 9], [8, 8, 8]], code := "H3" }).state.tag
          = 7 + (created : Int)) :=
  ⟨by decide,
   (C23_recvData_overwrites_tag sampleRegistry sampleComm
      { pos0 := 7, pos1 := 2, labelData := some ["H2", "H3"]
        objData := some [[9, 9, 9], [8, 8, 8]], code := "H3" } (by decide)).1.imp
     (fun _ h => ⟨h.1, h.2.2.2⟩)⟩

end NodeLockers
end XC

namespace XC
namespace NodeLockers

/-! The current selection is a name -/

theorem nuevoNodeLocker_code (this : NodeLockers) (nmb : String) :
    (this.nuevoNodeLocker nmb).state.code = this.code := by
  by_cases hne : nmb = ""
  · subst hne
    rw [nuevoNodeLocker_empty]
  · cases hb : this.busca_node_locker nmb with
    | some p => rw [nuevoNodeLocker_of_some this nmb p hne hb]
    | none => rw [nuevoNodeLocker_of_none this nmb hne hb]

theorem borraNodeLocker_code (this : NodeLockers) (nmb : String) :
    (this.borraNodeLocker nmb).state.code = this.code := by
  cases hb : this.busca_node_locker nmb with
  | none => rw [borraNodeLocker_of_none this nmb hb]
  | some p => rw [borraNodeLocker_of_some this nmb p hb]

/-- C24: the current selection is resolved by name at each query and is not altered by
creation or removal.  In every state of a registry `getCurrentNodeLockerPtr()` is
`busca_node_locker(getCurrentNodeLockerId())`, and `nuevoNodeLocker`, `borraNodeLocker`
and `clearAll` leave `getCurrentNodeLockerId()` unchanged.  Hence (a) after removing the
current locker `N` (the accessor is then null) and calling `nuevoNodeLocker(N)`, the
accessor returns the newly created locker; (b) in a newly constructed registry the
current name is "nil", and creating a locker named "nil" makes it the current one. -/
theorem C24_current_selection_by_name (this : NodeLockers) (hr : Reachable this) :
    this.getCurrentNodeLockerPtr = this.busca_node_locker this.getCurrentNodeLockerId ∧
    (∀ nmb, (this.nuevoNodeLocker nmb).state.getCurrentNodeLockerId
      = this.getCurrentNodeLockerId) ∧
    (∀ nmb, (this.borraNodeLocker nmb).state.getCurrentNodeLockerId
      = this.getCurrentNodeLockerId) ∧
    (∀ o, this.clearAll = some o →
      o.state.getCurrentNodeLockerId = this.getCurrentNodeLockerId) ∧
    (∀ N p, this.getCurrentNodeLockerId = N → this.busca_node_locker N = some p →
      (this.borraNodeLocker N).state.getCurrentNodeLockerPtr = none ∧
      ((this.borraNodeLocker N).state.nuevoNodeLocker N).retval
        = some (NodeLocker.new this.tag) ∧
      ((this.borraNodeLocker N).state.nuevoNodeLocker N).state.getCurrentNodeLockerPtr
        = some (NodeLocker.new this.tag)) ∧
    (∀ owr, (ctor owr).getCurrentNodeLockerId = "nil" ∧
      (ctor owr).getCurrentNodeLockerPtr = none ∧
      ((ctor owr).nuevoNodeLocker "nil").retval = some (NodeLocker.new 0) ∧
      ((ctor owr).nuevoNodeLocker "nil").state.getCurrentNodeLockerPtr
        = some (NodeLocker.new 0)) := by
  refine ⟨rfl, fun nmb => nuevoNodeLocker_code this nmb,
    fun nmb => borraNodeLocker_code this nmb, fun o ho => clearAll_code this o ho, ?_, ?_⟩
  · intro N p hcur hin
    have hord := reachable_ordered this hr
    have hne : N ≠ "" := by
      intro hc
      rw [hc, reachable_busca_empty this hr] at hin
      exact Option.noConfusion hin
    simp only [getCurrentNodeLockerId] at hcur
    have hgone : (this.borraNodeLocker N).state.busca_node_locker N = none := by
      rw [borraNodeLocker_of_some this N p hin]
      exact map_node_lockers.find_erase_self _ _ hord
    have hcode : (this.borraNodeLocker N).state.code = N :=
      (borraNodeLocker_code this N).trans hcur
    have htag : (this.borraNodeLocker N).state.tag = this.tag := borraNodeLocker_tag this N
    refine ⟨?_, ?_, ?_⟩
    · simp only [getCurrentNodeLockerPtr, hcode]
      exact hgone
    · rw [nuevoNodeLocker_of_none _ N hne hgone, htag]
    · have hc2 : ((this.borraNodeLocker N).state.nuevoNodeLocker N).state.code = N :=
        (nuevoNodeLocker_code _ N).trans hcode
      simp only [getCurrentNodeLockerPtr, hc2]
      rw [busca_after_nuevoNodeLocker _ N hne, nuevoNodeLocker_of_none _ N hne hgone, htag]
  · intro owr
    have hnil : ("nil" : String) ≠ "" := by decide
    have h := nuevoNodeLocker_of_none (ctor owr) "nil" hnil rfl
    rw [h]
    refine ⟨rfl, rfl, rfl, ?_⟩
    exact map_node_lockers.find_assign_self _ _ _

/-- Witness of C24: "nil" is created in a new registry, removed and created again; the
accessor then returns the second locker, whose tag is 1. -/
theorem C24_current_selection_by_name_witness :
    (((ctor none).nuevoNodeLocker "nil").state.borraNodeLocker
        "nil").state.getCurrentNodeLockerPtr = none ∧
    ((((ctor none).nuevoNodeLocker "nil").state.borraNodeLocker "nil").state.nuevoNodeLocker
        "nil").state.getCurrentNodeLockerPtr = some (NodeLocker.new 1) :=
  ⟨((C24_current_selection_by_name ((ctor none).nuevoNodeLocker "nil").state
      (Reachable.nuevoNodeLocker _ "nil" (Reachable.ctor none))).2.2.2.2.1 "nil"
      (NodeLocker.new 0) (by decide) (by decide)).1,
   ((C24_current_selection_by_name ((ctor none).nuevoNodeLocker "nil").state
      (Reachable.nuevoNodeLocker _ "nil" (Reachable.ctor none))).2.2.2.2.1 "nil"
      (NodeLocker.new 0) (by decide) (by decide)).2.2.trans (by decide)⟩

end NodeLockers
end XC
